import Mathlib

/-!
Starlark glue of GN (`src/starlark-go/starlark_glue.go`)

A shallow embedding of the Go bridge between the Starlark interpreter and the
native GN engine, and the properties of it that the specification states.

Modelling conventions.

* Go strings are Lean `String`s; `unsafe.Pointer` and the C node pointers are
  natural numbers (`Ptr`).
* Every call through cgo is recorded, in order, in `World.calls`; everything
  written with `fmt.Printf` is recorded in `World.stdout`.
* The C side (`starlark_glue.h`) is not part of the Go sources: what its
  functions return is taken as a parameter (`Engine`), a function of the calls
  made so far.
* The `go.starlark.net` library (parser, compiler, interpreter, the `String()`
  rendering of values) is likewise a parameter (`Starlark`).
* `log.Fatal`/`log.Fatalf` end the process: `Outcome.fatal`.  A failed type
  assertion `x.(T)` is a Go run-time panic: `Outcome.panic`.
* `uint32` is a natural number kept below `2 ^ 32`; `++` on it wraps.
* The keys of `kwargs` are always Starlark strings (the interpreter guarantees
  it), so a keyword argument is a pair `String × Value`.
-/

namespace StarGN

/-- Pointers crossing the cgo boundary (`unsafe.Pointer`, block and list nodes). -/
abbrev Ptr := Nat

/-- Starlark run-time values, by dynamic type.  `none`, `int` and `tuple` stand
for every type the `switch v.(type)` of `runGNFunction` sends to `default`. -/
inductive Value where
  | none
  | bool (b : Bool)
  | int (i : Int)
  | str (s : String)
  | list (elems : List Value)
  | tuple (elems : List Value)

/-- One recorded cgo call, with its arguments (and its result, when it has one). -/
inductive Call where
  | create_block_node (ret : Ptr)
  | append_bool_assign_to_block_node (block : Ptr) (key : String) (value : Nat)
  | append_quoted_string_assign_to_block_node (block : Ptr) (key : String) (value : String)
  | create_list_node (ret : Ptr)
  | append_quoted_string_to_list_node (list : Ptr) (quoted : String)
  | append_list_assign_to_block_node (block : Ptr) (key : String) (list : Ptr)
  | run_gn_function (scope : Ptr) (targetType : String) (targetName : String) (block : Ptr)
  | run_gn_import (scope : Ptr) (filename : String) (templateNames : List String)

/-- What the process has done so far: the cgo calls and the standard output. -/
structure World where
  calls : List Call
  stdout : List String

/-- Record one cgo call. -/
def World.call (w : World) (c : Call) : World :=
  ⟨w.calls ++ [c], w.stdout⟩

/-- Record one `fmt.Printf`. -/
def World.print (w : World) (line : String) : World :=
  ⟨w.calls, w.stdout ++ [line]⟩

/-- How a Go function ends: it returns, the process exits through `log.Fatal`,
or a run-time panic unwinds it.  Each case carries the state reached. -/
inductive Outcome (σ α : Type) where
  | returned (a : α) (s : σ)
  | fatal (msg : String) (s : σ)
  | panic (s : σ)

/-- The state in which the function ended. -/
def Outcome.state {σ α : Type} : Outcome σ α → σ
  | .returned _ s => s
  | .fatal _ s => s
  | .panic s => s

/-- The results of the C functions of `starlark_glue.h`, as functions of the
calls recorded so far. -/
structure Engine where
  create_block_node : List Call → Ptr
  create_list_node : List Call → Ptr
  run_gn_import : List Call → Ptr → String → List String

/-- The `%T` rendering of a value: its Go type. -/
def Value.goType : Value → String
  | .none => "starlark.NoneType"
  | .bool _ => "starlark.Bool"
  | .int _ => "starlark.Int"
  | .str _ => "starlark.String"
  | .list _ => "*starlark.List"
  | .tuple _ => "starlark.Tuple"

/-- The function `starlark.AsString`: the Go string of a Starlark string, and whether the
value was one. -/
def AsString : Value → String × Bool
  | .str s => (s, true)
  | _ => ("", false)

/-- The loop `for iter.Next(&listValue)` of `runGNFunction` (lines 77-86). -/
def runGNFunction.listLoop (listNode : Ptr) : List Value → World → Outcome World Unit
  | [], w => .returned () w
  | listValue :: rest, w =>
    match AsString listValue with
    | (str, true) =>
      let quotedStr := "\"" ++ str ++ "\""
      runGNFunction.listLoop listNode rest
        (w.call (.append_quoted_string_to_list_node listNode quotedStr))
    | (_, false) => .fatal "only strings in lists are supported currently\n" w

/-- The statement `switch v.(type)` of `runGNFunction` (lines 60-90), which
marshals the value `v` of the keyword `k` into the block. -/
def runGNFunction.marshal (render : Value → String) (eng : Engine) (blockNode : Ptr)
    (k : String) (v : Value) (w : World) : Outcome World Unit :=
  match v with
  | .bool b =>
    if b then
      .returned () (w.call (.append_bool_assign_to_block_node blockNode k 1))
    else
      .returned () (w.call (.append_bool_assign_to_block_node blockNode k 0))
  | .str _ =>
    .returned () (w.call (.append_quoted_string_assign_to_block_node blockNode k (render v)))
  | .list elems =>
    let listNode := eng.create_list_node w.calls
    let w := w.call (.create_list_node listNode)
    match runGNFunction.listLoop listNode elems w with
    | .returned _ w =>
      .returned () (w.call (.append_list_assign_to_block_node blockNode k listNode))
    | .fatal msg w => .fatal msg w
    | .panic w => .panic w
  | _ => .fatal ("unknown type " ++ v.goType ++ "\n") w

/-- The loop `for _, kwarg := range kwargs` of `runGNFunction` (lines 50-91);
the third argument is the variable `targetName`. -/
def runGNFunction.loop (render : Value → String) (eng : Engine) (blockNode : Ptr) :
    List (String × Value) → String → World → Outcome World String
  | [], targetName, w => .returned targetName w
  | (k, v) :: rest, targetName, w =>
    if k = "name" then
      match v with
      | .str s => runGNFunction.loop render eng blockNode rest s w
      | _ => .panic w
    else
      let w := w.print (k ++ " = " ++ render v ++ "\n")
      match runGNFunction.marshal render eng blockNode k v w with
      | .returned _ w => runGNFunction.loop render eng blockNode rest targetName w
      | .fatal msg w => .fatal msg w
      | .panic w => .panic w

/-- The function `runGNFunction` (lines 42-102).  `fnName` is `fn.Name()`; the result is the
Go pair `(starlark.Value, error)`, the error being its message. -/
def runGNFunction (render : Value → String) (eng : Engine) (scope : Ptr) (fnName : String)
    (args : List Value) (kwargs : List (String × Value)) (w : World) :
    Outcome World (Value × Option String) :=
  let _ := args
  let targetType := fnName
  let w := w.print ("\nTarget " ++ targetType ++ ":\n")
  let blockNode := eng.create_block_node w.calls
  let w := w.call (.create_block_node blockNode)
  match runGNFunction.loop render eng blockNode kwargs "" w with
  | .returned targetName w =>
    if targetName = "" then
      .returned (Value.none, some "target has no name") w
    else
      let targetNameQuoted := "\"" ++ targetName ++ "\""
      .returned (Value.none, none)
        (w.call (.run_gn_function scope targetType targetNameQuoted blockNode))
  | .fatal msg w => .fatal msg w
  | .panic w => .panic w

/-- The type `*starlark.Builtin` as this file uses it: the name it was created with and
the Go function it runs. -/
structure Builtin where
  name : String
  fn : List Value → List (String × Value) → World → Outcome World (Value × Option String)

/-- The constructor `starlark.NewBuiltin(name, f)`: when the builtin is called, `f` receives the
builtin itself, of which the code reads `fn.Name()` only. -/
def NewBuiltin (name : String)
    (f : String → List Value → List (String × Value) → World →
      Outcome World (Value × Option String)) : Builtin :=
  ⟨name, f name⟩

/-- The type `starlark.StringDict`, a Go map from names to values (builtins, here). -/
abbrev StringDict := String → Option Builtin

/-- The empty (or nil) dictionary. -/
def StringDict.empty : StringDict := fun _ => none

/-- The assignment `d[key] = b`. -/
def StringDict.set (d : StringDict) (key : String) (b : Builtin) : StringDict :=
  fun k => if k = key then some b else d k

/-- The method `StringDict.Has`: whether the key is in the map. -/
def StringDict.Has (d : StringDict) (key : String) : Bool :=
  (d key).isSome

/-- The function `strings.HasSuffix(s, suffix)`:
`len(s) >= len(suffix) && s[len(s)-len(suffix):] == suffix`. -/
def HasSuffix (s suffix : String) : Bool :=
  decide (s.data.length ≥ suffix.data.length) &&
    decide (s.data.drop (s.data.length - suffix.data.length) = suffix.data)

/-- The function `runGNImport` (lines 104-119).  The result is the Go pair
`(starlark.StringDict, error)`. -/
def runGNImport (render : Value → String) (eng : Engine) (scope : Ptr) (filename : String)
    (w : World) : Outcome World (StringDict × Option String) :=
  let importResults : StringDict := StringDict.empty
  let filenameQuoted := "\"" ++ filename ++ "\""
  let templateNames := eng.run_gn_import w.calls scope filenameQuoted
  let w := w.call (.run_gn_import scope filenameQuoted templateNames)
  let step : StringDict × World → String → StringDict × World :=
    fun acc templateName =>
      (acc.1.set templateName
          (NewBuiltin templateName (fun fnName args kwargs =>
            runGNFunction render eng scope fnName args kwargs)),
        acc.2.print ("declared " ++ templateName ++ "\n"))
  let done := templateNames.foldl step (importResults, w)
  .returned (done.1, none) done.2

/-- The fields of `starlark.Thread` that `ExecStarlark` sets.  A hook receives
the thread; of it the code reads `thread.Name` only, which is what `Print`
takes first. -/
structure Thread where
  Name : String
  Print : String → String → World → World
  Load : String → World → Outcome World (StringDict × Option String)

/-- The error of `program.Init`: a `*starlark.EvalError`, with its backtrace,
or any other error. -/
inductive InitError where
  | evalError (backtrace : String)
  | other (msg : String)

/-- The `go.starlark.net` library, as far as the glue uses it: the parser
`LegacyFileOptions().Parse(filename, src, 0)` on source files of type `F`,
`starlark.FileProgram`, `Program.Init` and `Value.String()`.  The library has no
access to the package-level variables of the glue, so `Init` acts on the `World`
alone. -/
structure Starlark (F P : Type) where
  Parse : String → String → Except String F
  FileProgram : Option F → (String → Bool) → Except String P
  Init : P → Thread → StringDict → World → Outcome World (Option InitError)
  render : Value → String

/-- The struct `ParseResult` (lines 19-23); a nil `parsedFile` is `none`. -/
structure ParseResult (F : Type) where
  filename : String
  gnInputFile : Ptr
  parsedFile : Option F
deriving DecidableEq

/-- The zero value of `ParseResult`, which a Go map returns for a missing key. -/
def ParseResult.zero {F : Type} : ParseResult F :=
  ⟨"", 0, none⟩

/-- The package-level variables `parseResults` and `nextParseResultIndex`
(lines 25-28). -/
structure Globals (F : Type) where
  parseResults : Nat → Option (ParseResult F)
  nextParseResultIndex : Nat

/-- The values the variables are declared with: an empty map and `0`. -/
def Globals.initial {F : Type} : Globals F :=
  ⟨fun _ => none, 0⟩

/-- The map read `parseResults[handle]`. -/
def Globals.lookup {F : Type} (g : Globals F) (handle : Nat) : ParseResult F :=
  (g.parseResults handle).getD ParseResult.zero

/-- The exported function `ParseStarlark` (lines 170-183). -/
def ParseStarlark {F P : Type} (lib : Starlark F P) (gnInputFile : Ptr) (s f : String)
    (g : Globals F) : Outcome (Globals F) Nat :=
  let src := s
  let filename := f
  match lib.Parse filename src with
  | .error err => .fatal err g
  | .ok parsedFile =>
    let thisParseResultIndex := g.nextParseResultIndex
    .returned thisParseResultIndex
      ⟨fun h => if h = thisParseResultIndex then some ⟨filename, gnInputFile, some parsedFile⟩
          else g.parseResults h,
        (g.nextParseResultIndex + 1) % 2 ^ 32⟩

/-- The `starlark.Thread` that `ExecStarlark` builds (lines 125-136). -/
def ExecStarlark.thread {F : Type} (render : Value → String) (eng : Engine) (scope : Ptr)
    (parseResult : ParseResult F) : Thread :=
  ⟨"stargn (" ++ parseResult.filename ++ ")",
    fun threadName msg w => w.print ("%s: %s" ++ " " ++ threadName ++ " " ++ msg ++ "\n"),
    fun module w =>
      if HasSuffix module ".gni" then
        runGNImport render eng scope module w
      else
        .returned (StringDict.empty, some "Only .gni loads are supported") w⟩

/-- The dictionary `predeclared` of `ExecStarlark` (lines 137-150). -/
def ExecStarlark.predeclared (render : Value → String) (eng : Engine) (scope : Ptr) :
    StringDict :=
  let rule : String → List Value → List (String × Value) → World →
      Outcome World (Value × Option String) :=
    fun fnName args kwargs => runGNFunction render eng scope fnName args kwargs
  (((StringDict.empty.set "component" (NewBuiltin "component" rule)).set
    "executable" (NewBuiltin "executable" rule)).set
    "group" (NewBuiltin "group" rule)).set
    "source_set" (NewBuiltin "source_set" rule)

/-- The exported function `ExecStarlark` (lines 121-168), on the package variables and the world. -/
def ExecStarlark {F P : Type} (lib : Starlark F P) (eng : Engine) (scope : Ptr) (handle : Nat)
    (g : Globals F) (w : World) : Outcome (Globals F × World) Unit :=
  let parseResult := g.lookup handle
  let thread := ExecStarlark.thread lib.render eng scope parseResult
  let predeclared := ExecStarlark.predeclared lib.render eng scope
  match lib.FileProgram parseResult.parsedFile predeclared.Has with
  | .error err => .fatal err (g, w)
  | .ok program =>
    match lib.Init program thread predeclared w with
    | .returned none w => .returned () (g, w)
    | .returned (some (.evalError backtrace)) w => .fatal backtrace (g, w)
    | .returned (some (.other msg)) w => .fatal msg (g, w)
    | .fatal msg w => .fatal msg (g, w)
    | .panic w => .panic (g, w)

/-- A host that calls `ParseStarlark` once per request `(gnInputFile, s, f)`,
in order, and collects the handles returned. -/
def parseSequence {F P : Type} (lib : Starlark F P) :
    List (Ptr × String × String) → Globals F → Outcome (Globals F) (List Nat)
  | [], g => .returned [] g
  | (gnInputFile, s, f) :: rest, g =>
    match ParseStarlark lib gnInputFile s f g with
    | .returned h g1 =>
      match parseSequence lib rest g1 with
      | .returned hs g2 => .returned (h :: hs) g2
      | .fatal msg g2 => .fatal msg g2
      | .panic g2 => .panic g2
    | .fatal msg g1 => .fatal msg g1
    | .panic g1 => .panic g1

/-! ### Vocabulary of the properties -/

/-- The values the marshaling switch accepts: a bool, a string, or a list whose
elements are all strings. -/
def Supported : Value → Bool
  | .bool _ => true
  | .str _ => true
  | .list elems => elems.all (fun e => (AsString e).2)
  | _ => false

/-- Whether the function returned to its caller. -/
def Outcome.isReturned {σ α : Type} : Outcome σ α → Bool
  | .returned _ _ => true
  | _ => false

/-- Whether the call ended the process instead of returning: through
`log.Fatal`/`log.Fatalf`, or through a run-time panic, which nothing in the glue
or between it and the C caller recovers. -/
def Outcome.endsProcess {σ α : Type} : Outcome σ α → Bool
  | .returned _ _ => false
  | .fatal _ _ => true
  | .panic _ => true

/-- Whether the process was ended by `log.Fatal` or `log.Fatalf`. -/
def Outcome.isFatal {σ α : Type} : Outcome σ α → Bool
  | .fatal _ _ => true
  | _ => false

/-- The values of the keyword arguments called `name`, in order. -/
def nameValues (kwargs : List (String × Value)) : List Value :=
  kwargs.filterMap (fun kv => if kv.1 = "name" then some kv.2 else none)

/-- The keys of the keyword arguments not called `name`, in order. -/
def otherKeys (kwargs : List (String × Value)) : List String :=
  (kwargs.map Prod.fst).filter (fun k => decide (k ≠ "name"))

/-- The block and key of a call that appends an assignment to a block. -/
def Call.assign : Call → Option (Ptr × String)
  | .append_bool_assign_to_block_node block key _ => some (block, key)
  | .append_quoted_string_assign_to_block_node block key _ => some (block, key)
  | .append_list_assign_to_block_node block key _ => some (block, key)
  | _ => none

/-- Whether a call is `run_gn_function`. -/
def Call.isRunGNFunction : Call → Bool
  | .run_gn_function _ _ _ _ => true
  | _ => false

/-- Whether a call is `run_gn_import`. -/
def Call.isRunGNImport : Call → Bool
  | .run_gn_import _ _ _ => true
  | _ => false

/-! ### Stand-ins for the external parts, for concrete runs -/

/-- A recording stand-in for the engine: each created node is numbered by the
number of calls made before it; every import declares one template. -/
def sampleEngine : Engine :=
  ⟨fun calls => calls.length, fun calls => calls.length, fun _ _ _ => ["my_template"]⟩

/-- A stand-in for `Value.String()`: strings in double quotes, anything else
by its type. -/
def sampleRender : Value → String
  | .str s => "\"" ++ s ++ "\""
  | v => v.goType

/-- A stand-in for the library: every source parses, to itself; every file
compiles; running a program does nothing. -/
def sampleStarlark : Starlark String Unit :=
  ⟨fun _ src => .ok src, fun _ _ => .ok (), fun _ _ _ w => .returned none w, sampleRender⟩

/-! ### The loops of `runGNFunction` -/

theorem loop_nil (render : Value → String) (eng : Engine) (b : Ptr) (t : String) (w : World) :
    runGNFunction.loop render eng b [] t w = .returned t w := rfl

theorem loop_name_str (render : Value → String) (eng : Engine) (b : Ptr) (s : String)
    (rest : List (String × Value)) (t : String) (w : World) :
    runGNFunction.loop render eng b (("name", .str s) :: rest) t w
      = runGNFunction.loop render eng b rest s w := by
  simp [runGNFunction.loop]

theorem loop_bool (render : Value → String) (eng : Engine) (blk : Ptr) (k : String) (b : Bool)
    (hk : k ≠ "name") (rest : List (String × Value)) (t : String) (w : World) :
    runGNFunction.loop render eng blk ((k, .bool b) :: rest) t w
      = runGNFunction.loop render eng blk rest t
          ((w.print (k ++ " = " ++ render (.bool b) ++ "\n")).call
            (.append_bool_assign_to_block_node blk k (if b then 1 else 0))) := by
  cases b <;> simp [runGNFunction.loop, runGNFunction.marshal, hk]

theorem loop_str (render : Value → String) (eng : Engine) (blk : Ptr) (k : String) (s : String)
    (hk : k ≠ "name") (rest : List (String × Value)) (t : String) (w : World) :
    runGNFunction.loop render eng blk ((k, .str s) :: rest) t w
      = runGNFunction.loop render eng blk rest t
          ((w.print (k ++ " = " ++ render (.str s) ++ "\n")).call
            (.append_quoted_string_assign_to_block_node blk k (render (.str s)))) := by
  simp [runGNFunction.loop, runGNFunction.marshal, hk]

theorem listLoop_strings (l : Ptr) (ss : List String) (w : World) :
    runGNFunction.listLoop l (ss.map Value.str) w
      = .returned () ⟨w.calls ++ ss.map (fun s =>
          Call.append_quoted_string_to_list_node l ("\"" ++ s ++ "\"")), w.stdout⟩ := by
  induction ss generalizing w with
  | nil => simp [runGNFunction.listLoop]
  | cons s ss ih =>
    simp [runGNFunction.listLoop, AsString, ih, World.call]

theorem loop_list_strings (render : Value → String) (eng : Engine) (blk : Ptr) (k : String)
    (ss : List String) (hk : k ≠ "name") (rest : List (String × Value)) (t : String)
    (w : World) :
    runGNFunction.loop render eng blk ((k, .list (ss.map Value.str)) :: rest) t w
      = runGNFunction.loop render eng blk rest t
          ⟨w.calls ++ [Call.create_list_node (eng.create_list_node w.calls)]
            ++ ss.map (fun s => Call.append_quoted_string_to_list_node
                (eng.create_list_node w.calls) ("\"" ++ s ++ "\""))
            ++ [Call.append_list_assign_to_block_node blk k (eng.create_list_node w.calls)],
           w.stdout ++ [k ++ " = " ++ render (.list (ss.map Value.str)) ++ "\n"]⟩ := by
  simp [runGNFunction.loop, runGNFunction.marshal, hk, listLoop_strings, World.call, World.print]

theorem all_strings_eq_map (elems : List Value)
    (h : elems.all (fun e => (AsString e).2) = true) :
    elems = (elems.map (fun e => (AsString e).1)).map Value.str := by
  induction elems with
  | nil => rfl
  | cons e es ih =>
    simp only [List.all_cons, Bool.and_eq_true] at h
    have htail := ih h.2
    cases e with
    | str s =>
      simp only [List.map_cons, AsString]
      exact congrArg (fun l => Value.str s :: l) htail
    | _ => simp [AsString] at h

theorem loop_append (render : Value → String) (eng : Engine) (blk : Ptr)
    (pre post : List (String × Value)) (t : String) (w : World) :
    runGNFunction.loop render eng blk (pre ++ post) t w
      = match runGNFunction.loop render eng blk pre t w with
        | .returned t1 w1 => runGNFunction.loop render eng blk post t1 w1
        | .fatal msg w1 => .fatal msg w1
        | .panic w1 => .panic w1 := by
  induction pre generalizing t w with
  | nil => simp [runGNFunction.loop]
  | cons kv pre ih =>
    obtain ⟨k, v⟩ := kv
    by_cases hk : k = "name"
    · subst hk
      cases v <;> simp [runGNFunction.loop, ih]
    · simp only [List.cons_append, runGNFunction.loop, hk, if_false]
      cases runGNFunction.marshal render eng blk k v
        (w.print (k ++ " = " ++ render v ++ "\n")) <;> simp [ih]

theorem nameValues_cons_name (v : Value) (rest : List (String × Value)) :
    nameValues (("name", v) :: rest) = v :: nameValues rest := by
  simp [nameValues]

theorem nameValues_cons_other (k : String) (hk : k ≠ "name") (v : Value)
    (rest : List (String × Value)) :
    nameValues ((k, v) :: rest) = nameValues rest := by
  simp [nameValues, hk]

theorem otherKeys_cons_name (v : Value) (rest : List (String × Value)) :
    otherKeys (("name", v) :: rest) = otherKeys rest := by
  simp [otherKeys]

theorem otherKeys_cons_other (k : String) (hk : k ≠ "name") (v : Value)
    (rest : List (String × Value)) :
    otherKeys ((k, v) :: rest) = k :: otherKeys rest := by
  simp [otherKeys, hk]

theorem filterMap_assign_elements (l : Ptr) (ss : List String) :
    (ss.map (fun s => Call.append_quoted_string_to_list_node l ("\"" ++ s ++ "\""))).filterMap
      Call.assign = [] := by
  induction ss with
  | nil => rfl
  | cons s ss ih => simp [Call.assign]

/-- On a well-formed call (every `name` is a string, every other value is
supported) the loop runs to its end: `targetName` is the last `name`, one
assignment was appended to the block per other keyword, in order, and
`run_gn_function` was not called. -/
theorem loop_wellFormed (render : Value → String) (eng : Engine) (blk : Ptr) :
    ∀ (kwargs : List (String × Value)) (ss : List String) (t : String) (w : World),
      nameValues kwargs = ss.map Value.str →
      (∀ kv ∈ kwargs, kv.1 ≠ "name" → Supported kv.2 = true) →
      ∃ (delta : List Call) (out : List String),
        runGNFunction.loop render eng blk kwargs t w
          = .returned (ss.getLast?.getD t) ⟨w.calls ++ delta, out⟩ ∧
        delta.filterMap Call.assign = (otherKeys kwargs).map (fun k => (blk, k)) ∧
        ∀ c ∈ delta, c.isRunGNFunction = false := by
  intro kwargs
  induction kwargs with
  | nil =>
    intro ss t w hn _
    have hss : ss = [] := by
      cases ss with
      | nil => rfl
      | cons s ss => simp [nameValues] at hn
    subst hss
    exact ⟨[], w.stdout, by simp [runGNFunction.loop], rfl, by simp⟩
  | cons kv rest ih =>
    intro ss t w hn hsup
    obtain ⟨k, v⟩ := kv
    have hrest : ∀ kv ∈ rest, kv.1 ≠ "name" → Supported kv.2 = true :=
      fun kv hkv => hsup kv (List.mem_cons_of_mem _ hkv)
    by_cases hk : k = "name"
    · subst hk
      rw [nameValues_cons_name] at hn
      cases ss with
      | nil => simp at hn
      | cons s ss =>
        simp only [List.map_cons, List.cons.injEq] at hn
        obtain ⟨hv, hn⟩ := hn
        subst hv
        obtain ⟨delta, out, hrun, hkeys, hno⟩ := ih ss s w hn hrest
        refine ⟨delta, out, ?_, ?_, hno⟩
        · rw [loop_name_str, hrun, List.getLast?_cons]
          rfl
        · rw [otherKeys_cons_name]
          exact hkeys
    · rw [nameValues_cons_other k hk] at hn
      have hv : Supported v = true := hsup (k, v) (List.mem_cons_self _ _) hk
      rw [otherKeys_cons_other k hk]
      cases v with
      | bool b =>
        obtain ⟨delta, out, hrun, hkeys, hno⟩ := ih ss t
          ((w.print (k ++ " = " ++ render (.bool b) ++ "\n")).call
            (.append_bool_assign_to_block_node blk k (if b then 1 else 0))) hn hrest
        refine ⟨Call.append_bool_assign_to_block_node blk k (if b then 1 else 0) :: delta,
          out, ?_, ?_, ?_⟩
        · rw [loop_bool render eng blk k b hk, hrun]
          simp [World.call, World.print]
        · simp [Call.assign, hkeys]
        · intro c hc
          rcases List.mem_cons.1 hc with h | h
          · subst h; rfl
          · exact hno c h
      | str s =>
        obtain ⟨delta, out, hrun, hkeys, hno⟩ := ih ss t
          ((w.print (k ++ " = " ++ render (.str s) ++ "\n")).call
            (.append_quoted_string_assign_to_block_node blk k (render (.str s)))) hn hrest
        refine ⟨Call.append_quoted_string_assign_to_block_node blk k (render (.str s)) :: delta,
          out, ?_, ?_, ?_⟩
        · rw [loop_str render eng blk k s hk, hrun]
          simp [World.call, World.print]
        · simp [Call.assign, hkeys]
        · intro c hc
          rcases List.mem_cons.1 hc with h | h
          · subst h; rfl
          · exact hno c h
      | list elems =>
        have hall : elems.all (fun e => (AsString e).2) = true := by
          simpa [Supported] using hv
        rw [all_strings_eq_map elems hall]
        generalize elems.map (fun e => (AsString e).1) = es
        obtain ⟨delta, out, hrun, hkeys, hno⟩ := ih ss t
          ⟨w.calls ++ [Call.create_list_node (eng.create_list_node w.calls)]
            ++ es.map (fun s => Call.append_quoted_string_to_list_node
                (eng.create_list_node w.calls) ("\"" ++ s ++ "\""))
            ++ [Call.append_list_assign_to_block_node blk k (eng.create_list_node w.calls)],
           w.stdout ++ [k ++ " = " ++ render (.list (es.map Value.str)) ++ "\n"]⟩ hn hrest
        refine ⟨[Call.create_list_node (eng.create_list_node w.calls)]
            ++ es.map (fun s => Call.append_quoted_string_to_list_node
                (eng.create_list_node w.calls) ("\"" ++ s ++ "\""))
            ++ [Call.append_list_assign_to_block_node blk k (eng.create_list_node w.calls)]
            ++ delta, out, ?_, ?_, ?_⟩
        · rw [loop_list_strings render eng blk k es hk, hrun]
          simp
        · rw [List.filterMap_append, List.filterMap_append, List.filterMap_append,
            filterMap_assign_elements, hkeys]
          simp [Call.assign]
        · intro c hc
          simp only [List.mem_append, List.mem_singleton, List.mem_map] at hc
          rcases hc with ((h | ⟨s, _, h⟩) | h) | h
          · subst h; rfl
          · subst h; rfl
          · subst h; rfl
          · exact hno c h
      | none => simp [Supported] at hv
      | int i => simp [Supported] at hv
      | tuple es => simp [Supported] at hv

theorem loop_name_other (render : Value → String) (eng : Engine) (blk : Ptr) (v : Value)
    (hv : ∀ s, v ≠ .str s) (rest : List (String × Value)) (t : String) (w : World) :
    runGNFunction.loop render eng blk (("name", v) :: rest) t w = .panic w := by
  cases v with
  | str s => exact absurd rfl (hv s)
  | _ => simp [runGNFunction.loop]

/-- The inner loop either appends every element and returns, when all elements
are strings, or ends the process at the first element that is not one. -/
theorem listLoop_cases (l : Ptr) (elems : List Value) (w : World) :
    ∃ delta : List Call,
      (∀ c ∈ delta, c.isRunGNFunction = false ∧ c.assign = none) ∧
      ((elems.all (fun e => (AsString e).2) = true ∧
          runGNFunction.listLoop l elems w = .returned () ⟨w.calls ++ delta, w.stdout⟩) ∨
       (elems.all (fun e => (AsString e).2) = false ∧
          runGNFunction.listLoop l elems w
            = .fatal "only strings in lists are supported currently\n"
                ⟨w.calls ++ delta, w.stdout⟩)) := by
  induction elems generalizing w with
  | nil => exact ⟨[], by simp, Or.inl ⟨rfl, by simp [runGNFunction.listLoop]⟩⟩
  | cons e es ih =>
    cases e with
    | str s =>
      obtain ⟨delta, hd, h⟩ :=
        ih (w.call (.append_quoted_string_to_list_node l ("\"" ++ s ++ "\"")))
      refine ⟨Call.append_quoted_string_to_list_node l ("\"" ++ s ++ "\"") :: delta, ?_, ?_⟩
      · intro c hc
        rcases List.mem_cons.1 hc with h | h
        · subst h; exact ⟨rfl, rfl⟩
        · exact hd c h
      · rcases h with ⟨hall, hrun⟩ | ⟨hall, hrun⟩
        · left
          refine ⟨by simpa [AsString] using hall, ?_⟩
          simp only [runGNFunction.listLoop, AsString, hrun]
          simp [World.call]
        · right
          refine ⟨by simpa [AsString] using hall, ?_⟩
          simp only [runGNFunction.listLoop, AsString, hrun]
          simp [World.call]
    | _ =>
      exact ⟨[], by simp, Or.inr ⟨by simp [AsString], by simp [runGNFunction.listLoop, AsString]⟩⟩

/-- One keyword other than `name` with a supported value: the loop goes on,
having appended one assignment of that key to the block. -/
theorem loop_supported (render : Value → String) (eng : Engine) (blk : Ptr) (k : String)
    (v : Value) (hk : k ≠ "name") (hv : Supported v = true) (w : World) :
    ∃ (delta : List Call) (out : List String),
      (∀ rest t, runGNFunction.loop render eng blk ((k, v) :: rest) t w
        = runGNFunction.loop render eng blk rest t ⟨w.calls ++ delta, out⟩) ∧
      delta.filterMap Call.assign = [(blk, k)] ∧
      ∀ c ∈ delta, c.isRunGNFunction = false := by
  cases v with
  | bool b =>
    refine ⟨[Call.append_bool_assign_to_block_node blk k (if b then 1 else 0)],
      w.stdout ++ [k ++ " = " ++ render (.bool b) ++ "\n"], ?_, ?_, ?_⟩
    · intro rest t
      rw [loop_bool render eng blk k b hk]
      rfl
    · simp [Call.assign]
    · intro c hc
      rw [List.mem_singleton] at hc
      subst hc; rfl
  | str s =>
    refine ⟨[Call.append_quoted_string_assign_to_block_node blk k (render (.str s))],
      w.stdout ++ [k ++ " = " ++ render (.str s) ++ "\n"], ?_, ?_, ?_⟩
    · intro rest t
      rw [loop_str render eng blk k s hk]
      rfl
    · simp [Call.assign]
    · intro c hc
      rw [List.mem_singleton] at hc
      subst hc; rfl
  | list elems =>
    have hall : elems.all (fun e => (AsString e).2) = true := by
      simpa [Supported] using hv
    rw [all_strings_eq_map elems hall]
    generalize elems.map (fun e => (AsString e).1) = es
    refine ⟨[Call.create_list_node (eng.create_list_node w.calls)]
        ++ es.map (fun s => Call.append_quoted_string_to_list_node
            (eng.create_list_node w.calls) ("\"" ++ s ++ "\""))
        ++ [Call.append_list_assign_to_block_node blk k (eng.create_list_node w.calls)],
      w.stdout ++ [k ++ " = " ++ render (.list (es.map Value.str)) ++ "\n"], ?_, ?_, ?_⟩
    · intro rest t
      rw [loop_list_strings render eng blk k es hk]
      simp
    · rw [List.filterMap_append, List.filterMap_append, filterMap_assign_elements]
      simp [Call.assign]
    · intro c hc
      simp only [List.mem_append, List.mem_singleton, List.mem_map] at hc
      rcases hc with (h | ⟨s, _, h⟩) | h
      · subst h; rfl
      · subst h; rfl
      · subst h; rfl
  | none => simp [Supported] at hv
  | int i => simp [Supported] at hv
  | tuple es => simp [Supported] at hv

/-- One keyword other than `name` with an unsupported value: the process ends
there through `log.Fatalf`, with no assignment of that key and no
`run_gn_function`. -/
theorem loop_unsupported (render : Value → String) (eng : Engine) (blk : Ptr) (k : String)
    (v : Value) (hk : k ≠ "name") (hv : Supported v = false) (w : World) :
    ∃ (msg : String) (delta : List Call) (out : List String),
      (∀ rest t, runGNFunction.loop render eng blk ((k, v) :: rest) t w
        = .fatal msg ⟨w.calls ++ delta, out⟩) ∧
      ∀ c ∈ delta, c.isRunGNFunction = false ∧ c.assign = none := by
  cases v with
  | bool b => simp [Supported] at hv
  | str s => simp [Supported] at hv
  | list elems =>
    obtain ⟨delta, hd, h⟩ := listLoop_cases (eng.create_list_node w.calls) elems
      ((w.print (k ++ " = " ++ render (.list elems) ++ "\n")).call
        (.create_list_node (eng.create_list_node w.calls)))
    rcases h with ⟨hall, _⟩ | ⟨_, hrun⟩
    · simp only [Supported] at hv
      rw [hall] at hv
      exact absurd hv (by decide)
    · refine ⟨"only strings in lists are supported currently\n",
        Call.create_list_node (eng.create_list_node w.calls) :: delta,
        w.stdout ++ [k ++ " = " ++ render (.list elems) ++ "\n"], ?_, ?_⟩
      · intro rest t
        simp only [runGNFunction.loop, runGNFunction.marshal, hk, if_false]
        simp only [World.print] at hrun ⊢
        rw [hrun]
        simp [World.call]
      · intro c hc
        rcases List.mem_cons.1 hc with h | h
        · subst h; exact ⟨rfl, rfl⟩
        · exact hd c h
  | none =>
    exact ⟨_, [], w.stdout ++ [k ++ " = " ++ render Value.none ++ "\n"],
      fun rest t => by simp [runGNFunction.loop, runGNFunction.marshal, hk, World.print]; rfl, by simp⟩
  | int i =>
    exact ⟨_, [], w.stdout ++ [k ++ " = " ++ render (.int i) ++ "\n"],
      fun rest t => by simp [runGNFunction.loop, runGNFunction.marshal, hk, World.print]; rfl, by simp⟩
  | tuple es =>
    exact ⟨_, [], w.stdout ++ [k ++ " = " ++ render (.tuple es) ++ "\n"],
      fun rest t => by simp [runGNFunction.loop, runGNFunction.marshal, hk, World.print]; rfl, by simp⟩

/-- Whatever the keyword arguments, the loop never calls `run_gn_function`. -/
theorem loop_state_calls (render : Value → String) (eng : Engine) (blk : Ptr) :
    ∀ (kwargs : List (String × Value)) (t : String) (w : World),
      ∃ delta : List Call,
        (runGNFunction.loop render eng blk kwargs t w).state.calls = w.calls ++ delta ∧
        ∀ c ∈ delta, c.isRunGNFunction = false := by
  intro kwargs
  induction kwargs with
  | nil => intro t w; exact ⟨[], by simp [runGNFunction.loop, Outcome.state], by simp⟩
  | cons kv rest ih =>
    intro t w
    obtain ⟨k, v⟩ := kv
    by_cases hk : k = "name"
    · subst hk
      by_cases hv : ∃ s, v = .str s
      · obtain ⟨s, rfl⟩ := hv
        rw [loop_name_str]
        exact ih s w
      · rw [loop_name_other render eng blk v (fun s h => hv ⟨s, h⟩)]
        exact ⟨[], by simp [Outcome.state], by simp⟩
    · cases hv : Supported v with
      | true =>
        obtain ⟨d0, out, hstep, _, hno0⟩ := loop_supported render eng blk k v hk hv w
        obtain ⟨d1, hcalls, hno1⟩ := ih t ⟨w.calls ++ d0, out⟩
        refine ⟨d0 ++ d1, ?_, ?_⟩
        · rw [hstep, hcalls, List.append_assoc]
        · intro c hc
          rcases List.mem_append.1 hc with h | h
          · exact hno0 c h
          · exact hno1 c h
      | false =>
        obtain ⟨msg, d0, out, hstep, hno0⟩ := loop_unsupported render eng blk k v hk hv w
        exact ⟨d0, by rw [hstep]; rfl, fun c hc => (hno0 c hc).1⟩

/-- A keyword other than `name` with an unsupported value keeps the loop from
returning; when every `name` is a string the loop ends through `log.Fatalf`. -/
theorem loop_bad (render : Value → String) (eng : Engine) (blk : Ptr) :
    ∀ (kwargs : List (String × Value)) (t : String) (w : World),
      (∃ kv ∈ kwargs, kv.1 ≠ "name" ∧ Supported kv.2 = false) →
      (runGNFunction.loop render eng blk kwargs t w).isReturned = false ∧
      ((∀ v ∈ nameValues kwargs, ∃ s, v = Value.str s) →
        (runGNFunction.loop render eng blk kwargs t w).isFatal = true) := by
  intro kwargs
  induction kwargs with
  | nil => intro t w h; obtain ⟨kv, hkv, _⟩ := h; simp at hkv
  | cons kv rest ih =>
    intro t w hbad
    obtain ⟨k, v⟩ := kv
    obtain ⟨bad, hmem, hbk, hbv⟩ := hbad
    by_cases hk : k = "name"
    · subst hk
      have hrest : ∃ kv ∈ rest, kv.1 ≠ "name" ∧ Supported kv.2 = false := by
        rcases List.mem_cons.1 hmem with h | h
        · subst h; exact absurd rfl hbk
        · exact ⟨bad, h, hbk, hbv⟩
      by_cases hv : ∃ s, v = .str s
      · obtain ⟨s, rfl⟩ := hv
        rw [loop_name_str, nameValues_cons_name]
        obtain ⟨h1, h2⟩ := ih s w hrest
        exact ⟨h1, fun hn => h2 (fun x hx => hn x (List.mem_cons_of_mem _ hx))⟩
      · rw [loop_name_other render eng blk v (fun s h => hv ⟨s, h⟩), nameValues_cons_name]
        exact ⟨rfl, fun hn => absurd (hn v (List.mem_cons_self _ _)) hv⟩
    · rw [nameValues_cons_other k hk]
      cases hv : Supported v with
      | true =>
        have hrest : ∃ kv ∈ rest, kv.1 ≠ "name" ∧ Supported kv.2 = false := by
          rcases List.mem_cons.1 hmem with h | h
          · subst h; rw [hv] at hbv; exact absurd hbv (by decide)
          · exact ⟨bad, h, hbk, hbv⟩
        obtain ⟨d0, out, hstep, _, _⟩ := loop_supported render eng blk k v hk hv w
        rw [hstep]
        exact ih t ⟨w.calls ++ d0, out⟩ hrest
      | false =>
        obtain ⟨msg, d0, out, hstep, _⟩ := loop_unsupported render eng blk k v hk hv w
        rw [hstep]
        exact ⟨rfl, fun _ => rfl⟩

/-! ### `runGNFunction` as a whole -/

/-- When the loop does not return, `runGNFunction` ends as the loop did. -/
theorem runGNFunction_of_loop_not_returned (render : Value → String) (eng : Engine)
    (scope : Ptr) (r : String) (args : List Value) (kwargs : List (String × Value)) (w : World)
    (h : (runGNFunction.loop render eng (eng.create_block_node w.calls) kwargs ""
        ⟨w.calls ++ [Call.create_block_node (eng.create_block_node w.calls)],
          w.stdout ++ ["\nTarget " ++ r ++ ":\n"]⟩).isReturned = false) :
    (runGNFunction render eng scope r args kwargs w).isReturned = false ∧
    (runGNFunction render eng scope r args kwargs w).isFatal
      = (runGNFunction.loop render eng (eng.create_block_node w.calls) kwargs ""
          ⟨w.calls ++ [Call.create_block_node (eng.create_block_node w.calls)],
            w.stdout ++ ["\nTarget " ++ r ++ ":\n"]⟩).isFatal ∧
    (runGNFunction render eng scope r args kwargs w).state
      = (runGNFunction.loop render eng (eng.create_block_node w.calls) kwargs ""
          ⟨w.calls ++ [Call.create_block_node (eng.create_block_node w.calls)],
            w.stdout ++ ["\nTarget " ++ r ++ ":\n"]⟩).state := by
  simp only [runGNFunction, World.print, World.call]
  cases hl : runGNFunction.loop render eng (eng.create_block_node w.calls) kwargs ""
      ⟨w.calls ++ [Call.create_block_node (eng.create_block_node w.calls)],
        w.stdout ++ ["\nTarget " ++ r ++ ":\n"]⟩ with
  | returned t w1 => rw [hl] at h; simp [Outcome.isReturned] at h
  | fatal msg w1 => exact ⟨rfl, rfl, rfl⟩
  | panic w1 => exact ⟨rfl, rfl, rfl⟩

/-- On a well-formed call `runGNFunction` returns: the error when the last
`name` is missing or empty, and otherwise after one `run_gn_function`. -/
theorem runGNFunction_wellFormed (render : Value → String) (eng : Engine) (scope : Ptr)
    (r : String) (args : List Value) (kwargs : List (String × Value)) (ss : List String)
    (w : World) (hname : nameValues kwargs = ss.map Value.str)
    (hsup : ∀ kv ∈ kwargs, kv.1 ≠ "name" → Supported kv.2 = true) :
    ∃ (delta : List Call) (out : List String),
      delta.filterMap Call.assign
        = (otherKeys kwargs).map (fun k => (eng.create_block_node w.calls, k)) ∧
      (∀ c ∈ delta, c.isRunGNFunction = false) ∧
      runGNFunction render eng scope r args kwargs w
        = if ss.getLast?.getD "" = "" then
            .returned (Value.none, some "target has no name")
              ⟨w.calls ++ [Call.create_block_node (eng.create_block_node w.calls)] ++ delta, out⟩
          else
            .returned (Value.none, none)
              ⟨w.calls ++ [Call.create_block_node (eng.create_block_node w.calls)] ++ delta
                ++ [Call.run_gn_function scope r ("\"" ++ ss.getLast?.getD "" ++ "\"")
                      (eng.create_block_node w.calls)], out⟩ := by
  obtain ⟨delta, out, hrun, hkeys, hno⟩ :=
    loop_wellFormed render eng (eng.create_block_node w.calls) kwargs ss ""
      ⟨w.calls ++ [Call.create_block_node (eng.create_block_node w.calls)],
        w.stdout ++ ["\nTarget " ++ r ++ ":\n"]⟩ hname hsup
  refine ⟨delta, out, hkeys, hno, ?_⟩
  simp only [runGNFunction, World.print, World.call, hrun]

theorem names_are_strings (l : List Value) (h : ∀ v ∈ l, ∃ s, v = Value.str s) :
    ∃ ss : List String, l = ss.map Value.str := by
  induction l with
  | nil => exact ⟨[], rfl⟩
  | cons v l ih =>
    obtain ⟨s, hs⟩ := h v (List.mem_cons_self _ _)
    obtain ⟨ss, hss⟩ := ih (fun x hx => h x (List.mem_cons_of_mem _ hx))
    exact ⟨s :: ss, by rw [hs, hss]; rfl⟩

theorem getLast_map_str (ss : List String) (n : String)
    (h : (ss.map Value.str).getLast? = some (Value.str n)) : ss.getLast? = some n := by
  rw [List.getLast?_map] at h
  cases hl : ss.getLast? with
  | none => rw [hl] at h; simp at h
  | some m =>
    rw [hl] at h
    simp only [Option.map_some'] at h
    injection h with h
    injection h with h
    rw [h]

theorem nameValues_nil_of_no_name (kwargs : List (String × Value))
    (h : ∀ kv ∈ kwargs, kv.1 ≠ "name") : nameValues kwargs = [] := by
  induction kwargs with
  | nil => rfl
  | cons kv rest ih =>
    obtain ⟨k, v⟩ := kv
    rw [nameValues_cons_other k (h (k, v) (List.mem_cons_self _ _))]
    exact ih (fun x hx => h x (List.mem_cons_of_mem _ hx))

/-! ### The rule invocation handler -/

/-- C1, as stated, fails: a `name` keyword with the empty string as value makes
`runGNFunction` return the error without calling `run_gn_function`, and of two
`name` keywords the value of the last one, not of the first, is the target
name. -/
theorem empty_or_repeated_name :
    runGNFunction sampleRender sampleEngine 7 "group" [] [("name", .str "")] ⟨[], []⟩
      = .returned (Value.none, some "target has no name")
          ⟨[.create_block_node 0], ["\nTarget group:\n"]⟩ ∧
    runGNFunction sampleRender sampleEngine 7 "group" []
        [("name", .str "a"), ("name", .str "b")] ⟨[], []⟩
      = .returned (Value.none, none)
          ⟨[.create_block_node 0, .run_gn_function 7 "group" "\"b\"" 0],
            ["\nTarget group:\n"]⟩ :=
  ⟨rfl, rfl⟩

/-- C1 (amended): when every `name` keyword has a string value, the value `n` of
the last one is not empty and every other value is supported, `runGNFunction`
calls `run_gn_function` exactly once, as the last call, with target type `r`,
target name `n` in double quotes and the block it created (to which one
assignment per other keyword was appended), and returns `(None, nil)`. -/
theorem runGNFunction_invokes_once (render : Value → String) (eng : Engine) (scope : Ptr)
    (r : String) (args : List Value) (kwargs : List (String × Value)) (n : String) (w : World)
    (hname : ∀ v ∈ nameValues kwargs, ∃ s, v = Value.str s)
    (hlast : (nameValues kwargs).getLast? = some (Value.str n))
    (hn : n ≠ "")
    (hsup : ∀ kv ∈ kwargs, kv.1 ≠ "name" → Supported kv.2 = true) :
    ∃ (delta : List Call) (out : List String),
      runGNFunction render eng scope r args kwargs w
        = .returned (Value.none, none)
            ⟨w.calls ++ [Call.create_block_node (eng.create_block_node w.calls)] ++ delta
              ++ [Call.run_gn_function scope r ("\"" ++ n ++ "\"")
                    (eng.create_block_node w.calls)], out⟩ ∧
      (∀ c ∈ delta, c.isRunGNFunction = false) ∧
      delta.filterMap Call.assign
        = (otherKeys kwargs).map (fun k => (eng.create_block_node w.calls, k)) := by
  obtain ⟨ss, hss⟩ := names_are_strings _ hname
  obtain ⟨delta, out, hkeys, hno, hrun⟩ :=
    runGNFunction_wellFormed render eng scope r args kwargs ss w hss hsup
  rw [hss] at hlast
  have hl := getLast_map_str ss n hlast
  rw [hl] at hrun
  simp only [Option.getD_some, if_neg hn] at hrun
  exact ⟨delta, out, hrun, hno, hkeys⟩

/-- An instance of `runGNFunction_invokes_once`: `executable(name="hello", srcs=["a.cc", "b.cc"], testonly=True)`. -/
theorem runGNFunction_invokes_once_witness :
    ∃ (delta : List Call) (out : List String),
      runGNFunction sampleRender sampleEngine 7 "executable" []
          [("name", .str "hello"), ("srcs", .list [.str "a.cc", .str "b.cc"]),
            ("testonly", .bool true)] ⟨[], []⟩
        = .returned (Value.none, none)
            ⟨[] ++ [Call.create_block_node (sampleEngine.create_block_node [])] ++ delta
              ++ [Call.run_gn_function 7 "executable" ("\"" ++ "hello" ++ "\"")
                    (sampleEngine.create_block_node [])], out⟩ ∧
      (∀ c ∈ delta, c.isRunGNFunction = false) ∧
      delta.filterMap Call.assign
        = (otherKeys [("name", .str "hello"), ("srcs", .list [.str "a.cc", .str "b.cc"]),
            ("testonly", Value.bool true)]).map
            (fun k => (sampleEngine.create_block_node [], k)) :=
  runGNFunction_invokes_once sampleRender sampleEngine 7 "executable" []
    [("name", .str "hello"), ("srcs", .list [.str "a.cc", .str "b.cc"]),
      ("testonly", .bool true)] "hello" ⟨[], []⟩
    (by intro v hv; simp [nameValues] at hv; exact ⟨"hello", hv⟩)
    (by simp [nameValues])
    (by decide)
    (by intro kv hkv _; simp at hkv; rcases hkv with h | h | h <;> subst h <;> rfl)

/-- C2, as stated, fails: with no `name` keyword and a value of an unsupported
type the process ends through `log.Fatalf`; no error is returned. -/
theorem no_name_unsupported_is_fatal :
    (∀ kv ∈ [("deps", Value.int 1)], kv.1 ≠ "name") ∧
    runGNFunction sampleRender sampleEngine 7 "group" [] [("deps", .int 1)] ⟨[], []⟩
      = .fatal "unknown type starlark.Int\n"
          ⟨[.create_block_node 0], ["\nTarget group:\n", "deps = starlark.Int\n"]⟩ :=
  ⟨by decide, rfl⟩

/-- C2 (amended): when no keyword is called `name`, `runGNFunction` makes no
call of `run_gn_function`; it returns the error "target has no name" if every
value is supported, and ends through `log.Fatalf` if some value is not. -/
theorem runGNFunction_no_name (render : Value → String) (eng : Engine) (scope : Ptr)
    (r : String) (args : List Value) (kwargs : List (String × Value)) (w : World)
    (hno : ∀ kv ∈ kwargs, kv.1 ≠ "name") :
    (∃ delta : List Call,
      (runGNFunction render eng scope r args kwargs w).state.calls = w.calls ++ delta ∧
      ∀ c ∈ delta, c.isRunGNFunction = false) ∧
    ((∀ kv ∈ kwargs, Supported kv.2 = true) →
      ∃ w1, runGNFunction render eng scope r args kwargs w
        = .returned (Value.none, some "target has no name") w1) ∧
    ((∃ kv ∈ kwargs, Supported kv.2 = false) →
      (runGNFunction render eng scope r args kwargs w).isFatal = true) := by
  have hnil := nameValues_nil_of_no_name kwargs hno
  by_cases hall : ∀ kv ∈ kwargs, Supported kv.2 = true
  · obtain ⟨delta, out, _, hnorun, hrun⟩ :=
      runGNFunction_wellFormed render eng scope r args kwargs [] w (by rw [hnil]; rfl)
        (fun kv hkv _ => hall kv hkv)
    simp only [List.getLast?_nil, Option.getD_none, if_true] at hrun
    refine ⟨⟨Call.create_block_node (eng.create_block_node w.calls) :: delta, ?_, ?_⟩,
      fun _ => ⟨_, hrun⟩, ?_⟩
    · rw [hrun]; simp [Outcome.state]
    · intro c hc
      rcases List.mem_cons.1 hc with h | h
      · subst h; rfl
      · exact hnorun c h
    · rintro ⟨kv, hkv, hbad⟩
      rw [hall kv hkv] at hbad
      exact absurd hbad (by decide)
  · have hbad : ∃ kv ∈ kwargs, kv.1 ≠ "name" ∧ Supported kv.2 = false := by
      by_contra hcon
      apply hall
      intro kv hkv
      cases hs : Supported kv.2 with
      | true => rfl
      | false => exact absurd ⟨kv, hkv, hno kv hkv, hs⟩ hcon
    obtain ⟨hret, hfatal⟩ := loop_bad render eng (eng.create_block_node w.calls) kwargs ""
      ⟨w.calls ++ [Call.create_block_node (eng.create_block_node w.calls)],
        w.stdout ++ ["\nTarget " ++ r ++ ":\n"]⟩ hbad
    obtain ⟨_, hf, hstate⟩ :=
      runGNFunction_of_loop_not_returned render eng scope r args kwargs w hret
    obtain ⟨delta, hcalls, hnorun⟩ :=
      loop_state_calls render eng (eng.create_block_node w.calls) kwargs ""
        ⟨w.calls ++ [Call.create_block_node (eng.create_block_node w.calls)],
          w.stdout ++ ["\nTarget " ++ r ++ ":\n"]⟩
    refine ⟨⟨Call.create_block_node (eng.create_block_node w.calls) :: delta, ?_, ?_⟩,
      fun h => absurd h hall, fun _ => ?_⟩
    · rw [hstate, hcalls]; simp
    · intro c hc
      rcases List.mem_cons.1 hc with h | h
      · subst h; rfl
      · exact hnorun c h
    · rw [hf]
      exact hfatal (by rw [hnil]; intro v hv; simp at hv)

/-- An instance of `runGNFunction_no_name`: `group(deps=[":a"], testonly=False)`. -/
theorem runGNFunction_no_name_witness :
    (∃ delta : List Call,
      (runGNFunction sampleRender sampleEngine 7 "group" []
        [("deps", .list [.str ":a"]), ("testonly", .bool false)] ⟨[], []⟩).state.calls
          = [] ++ delta ∧
      ∀ c ∈ delta, c.isRunGNFunction = false) ∧
    ((∀ kv ∈ [("deps", Value.list [.str ":a"]), ("testonly", Value.bool false)],
        Supported kv.2 = true) →
      ∃ w1, runGNFunction sampleRender sampleEngine 7 "group" []
          [("deps", .list [.str ":a"]), ("testonly", .bool false)] ⟨[], []⟩
        = .returned (Value.none, some "target has no name") w1) ∧
    ((∃ kv ∈ [("deps", Value.list [.str ":a"]), ("testonly", Value.bool false)],
        Supported kv.2 = false) →
      (runGNFunction sampleRender sampleEngine 7 "group" []
        [("deps", .list [.str ":a"]), ("testonly", .bool false)] ⟨[], []⟩).isFatal = true) :=
  runGNFunction_no_name sampleRender sampleEngine 7 "group" []
    [("deps", .list [.str ":a"]), ("testonly", .bool false)] ⟨[], []⟩ (by decide)

/-- C3, as stated, fails: every value below is of a supported type, yet the
call panics at `name=True` (the type assertion of line 55) before the keyword
`x` is reached, so no assignment is appended although `x` is not `name`. -/
theorem bool_name_stops_assignments :
    (∀ kv ∈ [("name", Value.bool true), ("x", Value.bool true)], Supported kv.2 = true) ∧
    otherKeys [("name", Value.bool true), ("x", Value.bool true)] = ["x"] ∧
    runGNFunction sampleRender sampleEngine 7 "group" []
        [("name", .bool true), ("x", .bool true)] ⟨[], []⟩
      = .panic ⟨[.create_block_node 0], ["\nTarget group:\n"]⟩ ∧
    (runGNFunction sampleRender sampleEngine 7 "group" []
        [("name", .bool true), ("x", .bool true)] ⟨[], []⟩).state.calls.filterMap Call.assign
      = [] :=
  ⟨by decide, rfl, rfl, rfl⟩

/-- C3 (amended): when every `name` keyword has a string value and every other
value is supported, the assignments `runGNFunction` appends are, in order, one
per keyword other than `name`, each to the block created by this call and with
the key of its keyword; `name` produces none and nothing else is appended. -/
theorem runGNFunction_assignment_keys (render : Value → String) (eng : Engine) (scope : Ptr)
    (r : String) (args : List Value) (kwargs : List (String × Value)) (w : World)
    (hname : ∀ v ∈ nameValues kwargs, ∃ s, v = Value.str s)
    (hsup : ∀ kv ∈ kwargs, kv.1 ≠ "name" → Supported kv.2 = true) :
    ∃ delta : List Call,
      (runGNFunction render eng scope r args kwargs w).state.calls = w.calls ++ delta ∧
      delta.filterMap Call.assign
        = (otherKeys kwargs).map (fun k => (eng.create_block_node w.calls, k)) ∧
      (delta.filterMap Call.assign).map Prod.snd
        = (kwargs.map Prod.fst).filter (fun k => decide (k ≠ "name")) := by
  obtain ⟨ss, hss⟩ := names_are_strings _ hname
  obtain ⟨delta, out, hkeys, _, hrun⟩ :=
    runGNFunction_wellFormed render eng scope r args kwargs ss w hss hsup
  have hproj : ∀ l : List String,
      (l.map (fun k => (eng.create_block_node w.calls, k))).map Prod.snd = l := by
    intro l
    induction l with
    | nil => rfl
    | cons a l ih => simp
  by_cases ht : ss.getLast?.getD "" = ""
  · rw [if_pos ht] at hrun
    refine ⟨Call.create_block_node (eng.create_block_node w.calls) :: delta, ?_, ?_, ?_⟩
    · rw [hrun]; simp [Outcome.state]
    · rw [List.filterMap_cons]
      simpa [Call.assign] using hkeys
    · rw [List.filterMap_cons]
      simp only [Call.assign]
      rw [hkeys, hproj]
      rfl
  · rw [if_neg ht] at hrun
    have hsplit : (Call.create_block_node (eng.create_block_node w.calls) :: delta
        ++ [Call.run_gn_function scope r ("\"" ++ ss.getLast?.getD "" ++ "\"")
              (eng.create_block_node w.calls)]).filterMap Call.assign
        = (otherKeys kwargs).map (fun k => (eng.create_block_node w.calls, k)) := by
      rw [List.cons_append, List.filterMap_cons]
      simp only [Call.assign]
      rw [List.filterMap_append, hkeys]
      simp [Call.assign]
    refine ⟨Call.create_block_node (eng.create_block_node w.calls) :: delta
        ++ [Call.run_gn_function scope r ("\"" ++ ss.getLast?.getD "" ++ "\"")
              (eng.create_block_node w.calls)], ?_, hsplit, ?_⟩
    · rw [hrun]; simp [Outcome.state]
    · rw [hsplit, hproj]
      rfl

/-- An instance of `runGNFunction_assignment_keys`: `group(testonly=True, name="g", deps=[":a"], output_name="o")`. -/
theorem runGNFunction_assignment_keys_witness :
    ∃ delta : List Call,
      (runGNFunction sampleRender sampleEngine 7 "group" []
        [("testonly", .bool true), ("name", .str "g"), ("deps", .list [.str ":a"]),
          ("output_name", .str "o")] ⟨[], []⟩).state.calls = [] ++ delta ∧
      delta.filterMap Call.assign
        = (otherKeys [("testonly", .bool true), ("name", .str "g"),
            ("deps", .list [.str ":a"]), ("output_name", Value.str "o")]).map
            (fun k => (sampleEngine.create_block_node [], k)) ∧
      (delta.filterMap Call.assign).map Prod.snd
        = ([("testonly", .bool true), ("name", .str "g"), ("deps", .list [.str ":a"]),
            ("output_name", Value.str "o")].map Prod.fst).filter
            (fun k => decide (k ≠ "name")) :=
  runGNFunction_assignment_keys sampleRender sampleEngine 7 "group" []
    [("testonly", .bool true), ("name", .str "g"), ("deps", .list [.str ":a"]),
      ("output_name", .str "o")] ⟨[], []⟩
    (by intro v hv; simp [nameValues] at hv; exact ⟨"g", hv⟩)
    (by intro kv hkv _; simp at hkv; rcases hkv with h | h | h | h <;> subst h <;> rfl)

/-- With `name=1` before the unsupported value the process ends in the run-time
panic of the type assertion of line 55, before the value is marshaled: the call
does not return and `run_gn_function` is not called. -/
theorem name_int_before_unsupported_panics :
    runGNFunction sampleRender sampleEngine 7 "group" []
        [("name", .int 1), ("x", .int 2)] ⟨[], []⟩
      = .panic ⟨[.create_block_node 0], ["\nTarget group:\n"]⟩ ∧
    runGNFunction sampleRender sampleEngine 7 "group" []
        [("x", .int 2), ("name", .bool true)] ⟨[], []⟩
      = .fatal "unknown type starlark.Int\n"
          ⟨[.create_block_node 0], ["\nTarget group:\n", "x = starlark.Int\n"]⟩ :=
  ⟨rfl, rfl⟩

/-- An outcome that is not a return ends the process. -/
theorem endsProcess_of_not_returned {σ α : Type} (o : Outcome σ α)
    (h : o.isReturned = false) : o.endsProcess = true := by
  cases o with
  | returned a s => simp [Outcome.isReturned] at h
  | fatal msg s => rfl
  | panic s => rfl

/-- The loop ends through `log.Fatalf` at the first keyword other than `name`
whose value is unsupported, when the keywords before it are well formed. -/
theorem loop_fatal_at_first_unsupported (render : Value → String) (eng : Engine) (blk : Ptr)
    (pre post : List (String × Value)) (k : String) (v : Value) (t : String) (w : World)
    (hk : k ≠ "name") (hv : Supported v = false)
    (hpre : ∀ kv ∈ pre, kv.1 ≠ "name" → Supported kv.2 = true)
    (hnames : ∀ x ∈ nameValues pre, ∃ s, x = Value.str s) :
    (runGNFunction.loop render eng blk (pre ++ (k, v) :: post) t w).isFatal = true := by
  obtain ⟨ss, hss⟩ := names_are_strings _ hnames
  obtain ⟨delta, out, hrun, _, _⟩ := loop_wellFormed render eng blk pre ss t w hss hpre
  obtain ⟨msg, d0, out0, hstep, _⟩ :=
    loop_unsupported render eng blk k v hk hv ⟨w.calls ++ delta, out⟩
  rw [loop_append, hrun]
  simp only
  rw [hstep]
  rfl

/-- C5: when some keyword other than `name` has an unsupported value (a list
with an element that is not a string, or a value that is no bool, string or
list), `runGNFunction` ends the process instead of returning and makes no call
of `run_gn_function`, whatever the other keywords are and whether or not there
is a `name`.  The process ends through `log.Fatalf` whenever the keywords before
the first unsupported value are well formed (the only other ending is the
run-time panic of a `name` that is not a string, met before that value). -/
theorem runGNFunction_unsupported (render : Value → String) (eng : Engine) (scope : Ptr)
    (r : String) (args : List Value) (kwargs : List (String × Value)) (w : World)
    (hbad : ∃ kv ∈ kwargs, kv.1 ≠ "name" ∧ Supported kv.2 = false) :
    (runGNFunction render eng scope r args kwargs w).endsProcess = true ∧
    (runGNFunction render eng scope r args kwargs w).isReturned = false ∧
    (∃ delta : List Call,
      (runGNFunction render eng scope r args kwargs w).state.calls = w.calls ++ delta ∧
      ∀ c ∈ delta, c.isRunGNFunction = false) ∧
    (∀ (pre post : List (String × Value)) (k : String) (v : Value),
      kwargs = pre ++ (k, v) :: post → k ≠ "name" → Supported v = false →
      (∀ kv ∈ pre, kv.1 ≠ "name" → Supported kv.2 = true) →
      (∀ x ∈ nameValues pre, ∃ s, x = Value.str s) →
      (runGNFunction render eng scope r args kwargs w).isFatal = true) := by
  obtain ⟨hret, _⟩ := loop_bad render eng (eng.create_block_node w.calls) kwargs ""
    ⟨w.calls ++ [Call.create_block_node (eng.create_block_node w.calls)],
      w.stdout ++ ["\nTarget " ++ r ++ ":\n"]⟩ hbad
  obtain ⟨hr, hf, hstate⟩ :=
    runGNFunction_of_loop_not_returned render eng scope r args kwargs w hret
  obtain ⟨delta, hcalls, hnorun⟩ :=
    loop_state_calls render eng (eng.create_block_node w.calls) kwargs ""
      ⟨w.calls ++ [Call.create_block_node (eng.create_block_node w.calls)],
        w.stdout ++ ["\nTarget " ++ r ++ ":\n"]⟩
  refine ⟨endsProcess_of_not_returned _ hr, hr,
    ⟨Call.create_block_node (eng.create_block_node w.calls) :: delta, ?_, ?_⟩, ?_⟩
  · rw [hstate, hcalls]; simp
  · intro c hc
    rcases List.mem_cons.1 hc with h | h
    · subst h; rfl
    · exact hnorun c h
  · intro pre post k v hsplit hk hv hpre hnames
    rw [hf, hsplit]
    exact loop_fatal_at_first_unsupported render eng (eng.create_block_node w.calls)
      pre post k v "" _ hk hv hpre hnames

/-- Instances of `runGNFunction_unsupported`:
`group(name="g", deps=[":a", 3], testonly=True)` ends through `log.Fatalf`, and
`group(name=1, x=2)` ends the process too; neither calls `run_gn_function`. -/
theorem runGNFunction_unsupported_witness :
    ((runGNFunction sampleRender sampleEngine 7 "group" []
        [("name", .str "g"), ("deps", .list [.str ":a", .int 3]), ("testonly", .bool true)]
        ⟨[], []⟩).endsProcess = true ∧
      (runGNFunction sampleRender sampleEngine 7 "group" []
        [("name", .str "g"), ("deps", .list [.str ":a", .int 3]), ("testonly", .bool true)]
        ⟨[], []⟩).isFatal = true ∧
      ∃ delta : List Call,
        (runGNFunction sampleRender sampleEngine 7 "group" []
          [("name", .str "g"), ("deps", .list [.str ":a", .int 3]), ("testonly", .bool true)]
          ⟨[], []⟩).state.calls = [] ++ delta ∧
        ∀ c ∈ delta, c.isRunGNFunction = false) ∧
    ((runGNFunction sampleRender sampleEngine 7 "group" []
        [("name", .int 1), ("x", .int 2)] ⟨[], []⟩).endsProcess = true ∧
      ∃ delta : List Call,
        (runGNFunction sampleRender sampleEngine 7 "group" []
          [("name", .int 1), ("x", .int 2)] ⟨[], []⟩).state.calls = [] ++ delta ∧
        ∀ c ∈ delta, c.isRunGNFunction = false) :=
  ⟨⟨(runGNFunction_unsupported sampleRender sampleEngine 7 "group" []
        [("name", .str "g"), ("deps", .list [.str ":a", .int 3]), ("testonly", .bool true)]
        ⟨[], []⟩ ⟨("deps", .list [.str ":a", .int 3]), by simp, by decide, rfl⟩).1,
      (runGNFunction_unsupported sampleRender sampleEngine 7 "group" []
        [("name", .str "g"), ("deps", .list [.str ":a", .int 3]), ("testonly", .bool true)]
        ⟨[], []⟩ ⟨("deps", .list [.str ":a", .int 3]), by simp, by decide, rfl⟩).2.2.2
        [("name", .str "g")] [("testonly", .bool true)] "deps"
        (.list [.str ":a", .int 3]) rfl (by decide) rfl
        (by intro kv hkv hk; simp at hkv; subst hkv; exact absurd rfl hk)
        (by intro x hx; simp [nameValues] at hx; exact ⟨"g", hx⟩),
      (runGNFunction_unsupported sampleRender sampleEngine 7 "group" []
        [("name", .str "g"), ("deps", .list [.str ":a", .int 3]), ("testonly", .bool true)]
        ⟨[], []⟩ ⟨("deps", .list [.str ":a", .int 3]), by simp, by decide, rfl⟩).2.2.1⟩,
    ⟨(runGNFunction_unsupported sampleRender sampleEngine 7 "group" []
        [("name", .int 1), ("x", .int 2)] ⟨[], []⟩
        ⟨("x", .int 2), by simp, by decide, rfl⟩).1,
      (runGNFunction_unsupported sampleRender sampleEngine 7 "group" []
        [("name", .int 1), ("x", .int 2)] ⟨[], []⟩
        ⟨("x", .int 2), by simp, by decide, rfl⟩).2.2.1⟩⟩

/-! ### The value marshaler -/

/-- C4: for every key `k` and every list of strings `s_1, ..., s_n` the
marshaling switch creates one list node, appends to it, in order, each `s_i`
between two double-quote characters (unescaped), and then appends one list
assignment of `k` to that node, to the block; it makes no other call.  In a
rule call this is what the keyword contributes wherever it stands, provided it
is not called `name`. -/
theorem marshal_string_list (render : Value → String) (eng : Engine) (blk : Ptr) (k : String)
    (ss : List String) (w : World) :
    runGNFunction.marshal render eng blk k (.list (ss.map Value.str)) w
      = .returned ()
          ⟨w.calls ++ [Call.create_list_node (eng.create_list_node w.calls)]
            ++ ss.map (fun s => Call.append_quoted_string_to_list_node
                (eng.create_list_node w.calls) ("\"" ++ s ++ "\""))
            ++ [Call.append_list_assign_to_block_node blk k (eng.create_list_node w.calls)],
           w.stdout⟩ ∧
    (k ≠ "name" → ∀ (pre post : List (String × Value)) (t t1 : String) (w0 : World),
      runGNFunction.loop render eng blk pre t w0 = .returned t1 w →
      runGNFunction.loop render eng blk (pre ++ (k, .list (ss.map Value.str)) :: post) t w0
        = runGNFunction.loop render eng blk post t1
            ⟨w.calls ++ [Call.create_list_node (eng.create_list_node w.calls)]
              ++ ss.map (fun s => Call.append_quoted_string_to_list_node
                  (eng.create_list_node w.calls) ("\"" ++ s ++ "\""))
              ++ [Call.append_list_assign_to_block_node blk k (eng.create_list_node w.calls)],
             w.stdout ++ [k ++ " = " ++ render (.list (ss.map Value.str)) ++ "\n"]⟩) := by
  constructor
  · simp [runGNFunction.marshal, listLoop_strings, World.call]
  · intro hk pre post t t1 w0 hpre
    rw [loop_append, hpre]
    exact loop_list_strings render eng blk k ss hk post t1 w

/-- An instance of `marshal_string_list`: `srcs=["a.cc", "b.cc"]`. -/
theorem marshal_string_list_witness :
    runGNFunction.marshal sampleRender sampleEngine 0 "srcs"
        (.list [.str "a.cc", .str "b.cc"]) ⟨[.create_block_node 0], []⟩
      = .returned ()
          ⟨[.create_block_node 0, .create_list_node 1,
            .append_quoted_string_to_list_node 1 "\"a.cc\"",
            .append_quoted_string_to_list_node 1 "\"b.cc\"",
            .append_list_assign_to_block_node 0 "srcs" 1], []⟩ :=
  (marshal_string_list sampleRender sampleEngine 0 "srcs" ["a.cc", "b.cc"]
    ⟨[.create_block_node 0], []⟩).1

/-- C6: for every key `k` and boolean `b` the marshaling switch makes exactly
one call, the boolean assignment of `k` with value `1` when `b` is `True` and
`0` when it is `False` (no string or list assignment); in a rule call this is
what the keyword contributes wherever it stands, provided it is not called
`name`. -/
theorem marshal_bool (render : Value → String) (eng : Engine) (blk : Ptr) (k : String)
    (b : Bool) (w : World) :
    runGNFunction.marshal render eng blk k (.bool b) w
      = .returned ()
          ⟨w.calls ++ [Call.append_bool_assign_to_block_node blk k (if b then 1 else 0)],
            w.stdout⟩ ∧
    (k ≠ "name" → ∀ (pre post : List (String × Value)) (t t1 : String) (w0 : World),
      runGNFunction.loop render eng blk pre t w0 = .returned t1 w →
      runGNFunction.loop render eng blk (pre ++ (k, .bool b) :: post) t w0
        = runGNFunction.loop render eng blk post t1
            ⟨w.calls ++ [Call.append_bool_assign_to_block_node blk k (if b then 1 else 0)],
              w.stdout ++ [k ++ " = " ++ render (.bool b) ++ "\n"]⟩) := by
  constructor
  · cases b <;> simp [runGNFunction.marshal, World.call]
  · intro hk pre post t t1 w0 hpre
    rw [loop_append, hpre]
    exact loop_bool render eng blk k b hk post t1 w

/-- Instances of `marshal_bool`: `flag=True`, `flag=False`, and `flag=True` after `name="t"`. -/
theorem marshal_bool_witness :
    runGNFunction.marshal sampleRender sampleEngine 0 "flag" (.bool true) ⟨[], []⟩
      = .returned () ⟨[.append_bool_assign_to_block_node 0 "flag" 1], []⟩ ∧
    runGNFunction.marshal sampleRender sampleEngine 0 "flag" (.bool false) ⟨[], []⟩
      = .returned () ⟨[.append_bool_assign_to_block_node 0 "flag" 0], []⟩ ∧
    runGNFunction.loop sampleRender sampleEngine 0
        ([("name", .str "t")] ++ ("flag", .bool true) :: [("x", .bool false)]) "" ⟨[], []⟩
      = runGNFunction.loop sampleRender sampleEngine 0 [("x", .bool false)] "t"
          ⟨[] ++ [Call.append_bool_assign_to_block_node 0 "flag" (if true then 1 else 0)],
            [] ++ ["flag" ++ " = " ++ sampleRender (.bool true) ++ "\n"]⟩ :=
  ⟨(marshal_bool sampleRender sampleEngine 0 "flag" true ⟨[], []⟩).1,
    (marshal_bool sampleRender sampleEngine 0 "flag" false ⟨[], []⟩).1,
    (marshal_bool sampleRender sampleEngine 0 "flag" true ⟨[], []⟩).2 (by decide)
      [("name", .str "t")] [("x", .bool false)] "" "t" ⟨[], []⟩ rfl⟩

/-- C10: when every `name` keyword has a string value and every other value is
supported, `runGNFunction` returns the error "target has no name" if and only if
there is no `name` keyword or the value of the last one is the empty string; it
returns it after appending the assignment of every other keyword and without
calling `run_gn_function`.  Otherwise it calls `run_gn_function` (once, last)
with the value of the last `name` keyword, in double quotes, as target name. -/
theorem runGNFunction_name_check (render : Value → String) (eng : Engine) (scope : Ptr)
    (r : String) (args : List Value) (kwargs : List (String × Value)) (w : World)
    (hname : ∀ v ∈ nameValues kwargs, ∃ s, v = Value.str s)
    (hsup : ∀ kv ∈ kwargs, kv.1 ≠ "name" → Supported kv.2 = true) :
    ((∃ w1, runGNFunction render eng scope r args kwargs w
        = .returned (Value.none, some "target has no name") w1) ↔
      (nameValues kwargs = [] ∨ (nameValues kwargs).getLast? = some (Value.str ""))) ∧
    (∀ w1, runGNFunction render eng scope r args kwargs w
        = .returned (Value.none, some "target has no name") w1 →
      ∃ delta : List Call,
        w1.calls = w.calls ++ [Call.create_block_node (eng.create_block_node w.calls)]
          ++ delta ∧
        (∀ c ∈ delta, c.isRunGNFunction = false) ∧
        delta.filterMap Call.assign
          = (otherKeys kwargs).map (fun k => (eng.create_block_node w.calls, k))) ∧
    (∀ n, (nameValues kwargs).getLast? = some (Value.str n) → n ≠ "" →
      ∃ (delta : List Call) (out : List String),
        runGNFunction render eng scope r args kwargs w
          = .returned (Value.none, none)
              ⟨w.calls ++ [Call.create_block_node (eng.create_block_node w.calls)] ++ delta
                ++ [Call.run_gn_function scope r ("\"" ++ n ++ "\"")
                      (eng.create_block_node w.calls)], out⟩ ∧
        (∀ c ∈ delta, c.isRunGNFunction = false) ∧
        delta.filterMap Call.assign
          = (otherKeys kwargs).map (fun k => (eng.create_block_node w.calls, k))) := by
  obtain ⟨ss, hss⟩ := names_are_strings _ hname
  obtain ⟨delta, out, hkeys, hno, hrun⟩ :=
    runGNFunction_wellFormed render eng scope r args kwargs ss w hss hsup
  have hlast : ∀ n, (nameValues kwargs).getLast? = some (Value.str n) → ss.getLast? = some n :=
    fun n h => getLast_map_str ss n (by rw [← hss]; exact h)
  by_cases ht : ss.getLast?.getD "" = ""
  · rw [if_pos ht] at hrun
    refine ⟨⟨fun _ => ?_, fun _ => ⟨_, hrun⟩⟩, ?_, ?_⟩
    · cases hl : ss.getLast? with
      | none =>
        left
        rw [hss, List.getLast?_eq_none_iff.1 hl]
        rfl
      | some m =>
        right
        rw [hl] at ht
        simp only [Option.getD_some] at ht
        rw [hss, List.getLast?_map, hl, ht]
        rfl
    · intro w1 h1
      rw [hrun] at h1
      injection h1 with _ hw
      exact ⟨delta, by rw [← hw], hno, hkeys⟩
    · intro n hn hne
      rw [hlast n hn] at ht
      exact absurd ht hne
  · rw [if_neg ht] at hrun
    refine ⟨⟨fun h => ?_, fun h => ?_⟩, ?_, ?_⟩
    · obtain ⟨w1, h1⟩ := h
      rw [hrun] at h1
      injection h1 with h1 _
      injection h1 with _ h1
      exact Option.noConfusion h1
    · rcases h with h | h
      · have hnil : ss = [] := by
          rw [hss] at h
          exact List.map_eq_nil_iff.1 h
        rw [hnil] at ht
        exact absurd rfl ht
      · rw [hlast "" h] at ht
        exact absurd rfl ht
    · intro w1 h1
      rw [hrun] at h1
      injection h1 with h1 _
      injection h1 with _ h1
      exact Option.noConfusion h1
    · intro n hn _
      have hl := hlast n hn
      rw [hl] at hrun
      exact ⟨delta, out, hrun, hno, hkeys⟩

/-- An instance of `runGNFunction_name_check`: `group(name="a", testonly=True, name="")` returns the error. -/
theorem runGNFunction_name_check_witness :
    (∃ w1, runGNFunction sampleRender sampleEngine 7 "group" []
        [("name", .str "a"), ("testonly", .bool true), ("name", .str "")] ⟨[], []⟩
        = .returned (Value.none, some "target has no name") w1) :=
  (runGNFunction_name_check sampleRender sampleEngine 7 "group" []
    [("name", .str "a"), ("testonly", .bool true), ("name", .str "")] ⟨[], []⟩
    (by intro v hv; simp [nameValues] at hv; rcases hv with h | h
        · exact ⟨"a", h⟩
        · exact ⟨"", h⟩)
    (by intro kv hkv hk; simp at hkv; rcases hkv with h | h | h <;> subst h
        · exact absurd rfl hk
        · rfl
        · exact absurd rfl hk)).1.2 (Or.inr (by simp [nameValues]))

/-! ### The source registry -/

theorem ParseStarlark_ok {F P : Type} (lib : Starlark F P) (gnInputFile : Ptr) (s f : String)
    (g : Globals F) (tree : F) (hp : lib.Parse f s = .ok tree) :
    ParseStarlark lib gnInputFile s f g
      = .returned g.nextParseResultIndex
          ⟨fun h => if h = g.nextParseResultIndex then some ⟨f, gnInputFile, some tree⟩
              else g.parseResults h,
            (g.nextParseResultIndex + 1) % 2 ^ 32⟩ := by
  simp [ParseStarlark, hp]

theorem ParseStarlark_error {F P : Type} (lib : Starlark F P) (gnInputFile : Ptr)
    (s f : String) (g : Globals F) (err : String) (hp : lib.Parse f s = .error err) :
    ParseStarlark lib gnInputFile s f g = .fatal err g := by
  simp [ParseStarlark, hp]

/-- A sequence of calls that all return: what the first call and the rest did. -/
theorem parseSequence_cons_returned {F P : Type} (lib : Starlark F P) (c : Ptr) (s f : String)
    (rest : List (Ptr × String × String)) (g g2 : Globals F) (hs : List Nat)
    (h : parseSequence lib ((c, s, f) :: rest) g = .returned hs g2) :
    ∃ (tree : F) (hs1 : List Nat),
      lib.Parse f s = .ok tree ∧
      hs = g.nextParseResultIndex :: hs1 ∧
      parseSequence lib rest
        ⟨fun h => if h = g.nextParseResultIndex then some ⟨f, c, some tree⟩
            else g.parseResults h,
          (g.nextParseResultIndex + 1) % 2 ^ 32⟩ = .returned hs1 g2 := by
  cases hp : lib.Parse f s with
  | error err =>
    simp [parseSequence, ParseStarlark_error lib c s f g err hp] at h
  | ok tree =>
    simp only [parseSequence, ParseStarlark_ok lib c s f g tree hp] at h
    cases hr : parseSequence lib rest
        ⟨fun h => if h = g.nextParseResultIndex then some ⟨f, c, some tree⟩
            else g.parseResults h,
          (g.nextParseResultIndex + 1) % 2 ^ 32⟩ with
    | returned hs1 g3 =>
      rw [hr] at h
      simp only [Outcome.returned.injEq] at h
      exact ⟨tree, hs1, rfl, h.1.symm, by rw [hr, h.2]⟩
    | fatal msg g3 => rw [hr] at h; simp at h
    | panic g3 => rw [hr] at h; simp at h

/-- When every source parses, every call of the sequence returns. -/
theorem parseSequence_succeeds {F P : Type} (lib : Starlark F P) :
    ∀ (reqs : List (Ptr × String × String)) (g : Globals F),
      (∀ req ∈ reqs, ∃ tree, lib.Parse req.2.2 req.2.1 = .ok tree) →
      ∃ hs g2, parseSequence lib reqs g = .returned hs g2 := by
  intro reqs
  induction reqs with
  | nil => intro g _; exact ⟨[], g, rfl⟩
  | cons req rest ih =>
    intro g hok
    obtain ⟨c, s, f⟩ := req
    obtain ⟨tree, hp⟩ := hok (c, s, f) (List.mem_cons_self _ _)
    obtain ⟨hs1, g2, hr⟩ := ih
      ⟨fun h => if h = g.nextParseResultIndex then some ⟨f, c, some tree⟩
          else g.parseResults h,
        (g.nextParseResultIndex + 1) % 2 ^ 32⟩
      (fun x hx => hok x (List.mem_cons_of_mem _ hx))
    exact ⟨g.nextParseResultIndex :: hs1, g2, by
      simp only [parseSequence, ParseStarlark_ok lib c s f g tree hp, hr]⟩

/-- The handles of a sequence count up from the counter, modulo `2 ^ 32`. -/
theorem parseSequence_handles {F P : Type} (lib : Starlark F P) :
    ∀ (reqs : List (Ptr × String × String)) (g g2 : Globals F) (hs : List Nat),
      g.nextParseResultIndex < 2 ^ 32 →
      parseSequence lib reqs g = .returned hs g2 →
      hs = (List.range reqs.length).map (fun i => (g.nextParseResultIndex + i) % 2 ^ 32) ∧
      g2.nextParseResultIndex = (g.nextParseResultIndex + reqs.length) % 2 ^ 32 := by
  intro reqs
  induction reqs with
  | nil =>
    intro g g2 hs hg h
    simp only [parseSequence, Outcome.returned.injEq] at h
    obtain ⟨h1, h2⟩ := h
    subst h1; subst h2
    exact ⟨rfl, by simp only [List.length_nil, Nat.add_zero]; exact (Nat.mod_eq_of_lt hg).symm⟩
  | cons req rest ih =>
    intro g g2 hs hg h
    obtain ⟨c, s, f⟩ := req
    obtain ⟨tree, hs1, _, hhs, hr⟩ := parseSequence_cons_returned lib c s f rest g g2 hs h
    obtain ⟨ih1, ih2⟩ := ih _ g2 hs1 (Nat.mod_lt _ (by norm_num)) hr
    simp only at ih1 ih2
    constructor
    · rw [hhs, ih1, List.length_cons, List.range_succ_eq_map, List.map_cons, List.map_map]
      congr 1
      · simp only [Nat.add_zero]; exact (Nat.mod_eq_of_lt hg).symm
      · apply List.map_congr_left
        intro i _
        simp only [Function.comp]
        omega
    · rw [ih2, List.length_cons]
      omega

/-- A sequence of calls changes the map only at the handles it returns. -/
theorem parseSequence_frame {F P : Type} (lib : Starlark F P) :
    ∀ (reqs : List (Ptr × String × String)) (g g2 : Globals F) (hs : List Nat),
      parseSequence lib reqs g = .returned hs g2 →
      ∀ h, h ∉ hs → g2.parseResults h = g.parseResults h := by
  intro reqs
  induction reqs with
  | nil =>
    intro g g2 hs h
    simp only [parseSequence, Outcome.returned.injEq] at h
    obtain ⟨_, h2⟩ := h
    subst h2
    intro _ _; rfl
  | cons req rest ih =>
    intro g g2 hs h x hx
    obtain ⟨c, s, f⟩ := req
    obtain ⟨tree, hs1, _, hhs, hr⟩ := parseSequence_cons_returned lib c s f rest g g2 hs h
    rw [hhs] at hx
    have hx1 : x ≠ g.nextParseResultIndex := fun e => hx (by rw [e]; exact List.mem_cons_self _ _)
    have hx2 : x ∉ hs1 := fun e => hx (List.mem_cons_of_mem _ e)
    rw [ih _ g2 hs1 hr x hx2]
    simp [hx1]

/-- After a sequence of identical requests every returned handle holds their
record. -/
theorem parseSequence_replicate_lookup {F P : Type} (lib : Starlark F P) (c : Ptr)
    (s f : String) (tree : F) (hp : lib.Parse f s = .ok tree) :
    ∀ (n : Nat) (g g2 : Globals F) (hs : List Nat),
      parseSequence lib (List.replicate n (c, s, f)) g = .returned hs g2 →
      ∀ h ∈ hs, g2.parseResults h = some ⟨f, c, some tree⟩ := by
  intro n
  induction n with
  | zero =>
    intro g g2 hs h
    simp only [List.replicate_zero, parseSequence, Outcome.returned.injEq] at h
    obtain ⟨h1, _⟩ := h
    subst h1
    intro x hx; simp at hx
  | succ n ih =>
    intro g g2 hs h x hx
    rw [List.replicate_succ] at h
    obtain ⟨tree1, hs1, hp1, hhs, hr⟩ :=
      parseSequence_cons_returned lib c s f (List.replicate n (c, s, f)) g g2 hs h
    have ht : tree1 = tree := by
      rw [hp] at hp1
      injection hp1 with e
      exact e.symm
    subst ht
    by_cases hmem : x ∈ hs1
    · exact ih _ g2 hs1 hr x hmem
    · rw [parseSequence_frame lib _ _ g2 hs1 hr x hmem]
      rw [hhs] at hx
      rcases List.mem_cons.1 hx with e | e
      · simp [e]
      · exact absurd e hmem

theorem ExecStarlark_globals {F P : Type} (lib : Starlark F P) (eng : Engine) (scope : Ptr)
    (handle : Nat) (g : Globals F) (w : World) :
    (ExecStarlark lib eng scope handle g w).state.1 = g := by
  unfold ExecStarlark
  simp only
  split
  · rfl
  · split <;> rfl

/-- C7, as stated, fails: the counter is a `uint32`, so in a sequence of
`2 ^ 32 + 1` successful calls from the initial registry the last call returns
handle `0`, which is not greater than the handle `2 ^ 32 - 1` of the call before
it and is the handle the first call returned. -/
theorem parse_handles_wrap :
    ∃ (hs : List Nat) (g2 : Globals String),
      parseSequence sampleStarlark (List.replicate (2 ^ 32 + 1) (1, "x = 1", "BUILD.star"))
        Globals.initial = .returned hs g2 ∧
      hs[2 ^ 32 - 1]? = some (2 ^ 32 - 1) ∧ hs[2 ^ 32]? = some 0 ∧ hs[0]? = some 0 := by
  obtain ⟨hs, g2, hrun⟩ := parseSequence_succeeds sampleStarlark
    (List.replicate (2 ^ 32 + 1) (1, "x = 1", "BUILD.star")) Globals.initial
    (fun req _ => ⟨req.2.1, rfl⟩)
  obtain ⟨hhs, _⟩ := parseSequence_handles sampleStarlark _ Globals.initial g2 hs
    (by norm_num [Globals.initial]) hrun
  rw [List.length_replicate] at hhs
  refine ⟨hs, g2, hrun, ?_, ?_, ?_⟩
  · rw [hhs, List.getElem?_map, List.getElem?_range (by norm_num)]
    simp only [Option.map_some', Globals.initial]
    norm_num
  · rw [hhs, List.getElem?_map, List.getElem?_range (by norm_num)]
    simp only [Option.map_some', Globals.initial]
    norm_num
  · rw [hhs, List.getElem?_map, List.getElem?_range (by norm_num)]
    simp only [Option.map_some', Globals.initial]
    norm_num

/-- C7 (amended): in a sequence of at most `2 ^ 32` successful `ParseStarlark`
calls from the initial registry, every returned handle is strictly greater than
all handles returned before it, so the handles are pairwise distinct. -/
theorem parse_handles_increase {F P : Type} (lib : Starlark F P)
    (reqs : List (Ptr × String × String)) (hlen : reqs.length ≤ 2 ^ 32)
    (hok : ∀ req ∈ reqs, ∃ tree, lib.Parse req.2.2 req.2.1 = .ok tree) :
    ∃ (hs : List Nat) (g2 : Globals F),
      parseSequence lib reqs Globals.initial = .returned hs g2 ∧
      hs.length = reqs.length ∧
      hs.Pairwise (fun a b => a < b) ∧ hs.Nodup := by
  obtain ⟨hs, g2, hrun⟩ := parseSequence_succeeds lib reqs Globals.initial hok
  obtain ⟨hhs, _⟩ := parseSequence_handles lib reqs Globals.initial g2 hs
    (by norm_num [Globals.initial]) hrun
  have hrange : hs = List.range reqs.length := by
    rw [hhs]
    conv_rhs => rw [← List.map_id (List.range reqs.length)]
    apply List.map_congr_left
    intro i hi
    have hi2 : i < reqs.length := List.mem_range.1 hi
    simp only [Globals.initial, id]
    omega
  refine ⟨hs, g2, hrun, ?_, ?_, ?_⟩
  · rw [hrange, List.length_range]
  · rw [hrange]; exact List.pairwise_lt_range _
  · rw [hrange]; exact List.nodup_range _

/-- An instance of `parse_handles_increase`: two sources registered in a row. -/
theorem parse_handles_increase_witness :
    ∃ (hs : List Nat) (g2 : Globals String),
      parseSequence sampleStarlark [(1, "x = 1", "a.star"), (1, "y = 2", "b.star")]
        Globals.initial = .returned hs g2 ∧
      hs.length = [((1 : Ptr), "x = 1", "a.star"), (1, "y = 2", "b.star")].length ∧
      hs.Pairwise (fun a b => a < b) ∧ hs.Nodup :=
  parse_handles_increase sampleStarlark [(1, "x = 1", "a.star"), (1, "y = 2", "b.star")]
    (by simp) (fun req _ => ⟨req.2.1, rfl⟩)

/-- C8, as stated, fails: after `2 ^ 32` successful calls handle `0` holds the
record of the source `a.star`; one more successful call returns handle `0` again
and replaces that record by the record of `b.star`. -/
theorem parse_overwrites_after_wrap :
    ∃ (hs : List Nat) (g1 g2 : Globals String),
      parseSequence sampleStarlark (List.replicate (2 ^ 32) (1, "x = 1", "a.star"))
        Globals.initial = .returned hs g1 ∧
      hs[0]? = some 0 ∧
      g1.parseResults 0 = some ⟨"a.star", 1, some "x = 1"⟩ ∧
      ParseStarlark sampleStarlark 2 "y = 2" "b.star" g1 = .returned 0 g2 ∧
      g2.parseResults 0 = some ⟨"b.star", 2, some "y = 2"⟩ ∧
      g2.parseResults 0 ≠ g1.parseResults 0 := by
  obtain ⟨hs, g1, hrun⟩ := parseSequence_succeeds sampleStarlark
    (List.replicate (2 ^ 32) (1, "x = 1", "a.star")) Globals.initial
    (fun req _ => ⟨req.2.1, rfl⟩)
  obtain ⟨hhs, hnext⟩ := parseSequence_handles sampleStarlark _ Globals.initial g1 hs
    (by norm_num [Globals.initial]) hrun
  rw [List.length_replicate] at hhs hnext
  have hnext0 : g1.nextParseResultIndex = 0 := by
    rw [hnext]
    simp only [Globals.initial]
    norm_num
  have h0 : hs[0]? = some 0 := by
    rw [hhs, List.getElem?_map, List.getElem?_range (by norm_num)]
    simp only [Option.map_some', Globals.initial]
    norm_num
  have hmem : 0 ∈ hs := List.mem_iff_getElem?.2 ⟨0, h0⟩
  have hrec := parseSequence_replicate_lookup sampleStarlark 1 "x = 1" "a.star" "x = 1" rfl
    (2 ^ 32) Globals.initial g1 hs hrun 0 hmem
  have hparse := ParseStarlark_ok sampleStarlark 2 "y = 2" "b.star" g1 "y = 2" rfl
  rw [hnext0] at hparse
  refine ⟨hs, g1, _, hrun, h0, hrec, hparse, ?_, ?_⟩
  · simp
  · rw [hrec]
    simp

/-- C8 (amended): a successful `ParseStarlark(ctx, src, filename)` stores the
record `(filename, ctx, parsed tree)` under the handle it returns; the record is
still stored there after any further sequence of fewer than `2 ^ 32` successful
`ParseStarlark` calls; and `ExecStarlark`, on any handle and however it ends,
leaves the map and the counter as they were. -/
theorem registry_records_kept {F P : Type} (lib : Starlark F P) (eng : Engine)
    (g : Globals F) (ctx : Ptr) (src filename : String) (tree : F)
    (hp : lib.Parse filename src = .ok tree) :
    ∃ g1 : Globals F,
      ParseStarlark lib ctx src filename g = .returned g.nextParseResultIndex g1 ∧
      g1.parseResults g.nextParseResultIndex = some ⟨filename, ctx, some tree⟩ ∧
      (∀ (reqs : List (Ptr × String × String)) (hs : List Nat) (g2 : Globals F),
        reqs.length < 2 ^ 32 → parseSequence lib reqs g1 = .returned hs g2 →
        g2.parseResults g.nextParseResultIndex = some ⟨filename, ctx, some tree⟩) ∧
      (∀ (scope : Ptr) (handle : Nat) (w : World) (g0 : Globals F),
        (ExecStarlark lib eng scope handle g0 w).state.1 = g0) := by
  refine ⟨_, ParseStarlark_ok lib ctx src filename g tree hp, by simp, ?_, ?_⟩
  · intro reqs hs g2 hlen hrun
    obtain ⟨hhs, _⟩ := parseSequence_handles lib reqs _ g2 hs
      (Nat.mod_lt _ (by norm_num)) hrun
    have hnot : g.nextParseResultIndex ∉ hs := by
      rw [hhs]
      intro hmem
      obtain ⟨i, hi, he⟩ := List.mem_map.1 hmem
      have hi2 : i < reqs.length := List.mem_range.1 hi
      simp only at he
      omega
    rw [parseSequence_frame lib reqs _ g2 hs hrun _ hnot]
    simp
  · intro scope handle w g0
    exact ExecStarlark_globals lib eng scope handle g0 w

/-- An instance of `registry_records_kept`: the first source registered. -/
theorem registry_records_kept_witness :
    ∃ g1 : Globals String,
      ParseStarlark sampleStarlark 1 "x = 1" "a.star" Globals.initial
        = .returned (Globals.initial : Globals String).nextParseResultIndex g1 ∧
      g1.parseResults (Globals.initial : Globals String).nextParseResultIndex
        = some ⟨"a.star", 1, some "x = 1"⟩ ∧
      (∀ (reqs : List (Ptr × String × String)) (hs : List Nat) (g2 : Globals String),
        reqs.length < 2 ^ 32 → parseSequence sampleStarlark reqs g1 = .returned hs g2 →
        g2.parseResults (Globals.initial : Globals String).nextParseResultIndex
          = some ⟨"a.star", 1, some "x = 1"⟩) ∧
      (∀ (scope : Ptr) (handle : Nat) (w : World) (g0 : Globals String),
        (ExecStarlark sampleStarlark sampleEngine scope handle g0 w).state.1 = g0) :=
  registry_records_kept sampleStarlark sampleEngine Globals.initial
    1 "x = 1" "a.star" "x = 1" rfl

/-! ### The import hook -/

/-- The test `strings.HasSuffix` holds exactly of the strings that end with the suffix. -/
theorem HasSuffix_iff (s suffix : String) :
    HasSuffix s suffix = true ↔ ∃ p : String, s = p ++ suffix := by
  simp only [HasSuffix, Bool.and_eq_true, decide_eq_true_eq]
  constructor
  · rintro ⟨_, hdrop⟩
    refine ⟨⟨s.data.take (s.data.length - suffix.data.length)⟩, ?_⟩
    apply String.ext
    rw [String.data_append]
    calc s.data
        = s.data.take (s.data.length - suffix.data.length)
            ++ s.data.drop (s.data.length - suffix.data.length) :=
          (List.take_append_drop _ _).symm
      _ = s.data.take (s.data.length - suffix.data.length) ++ suffix.data := by rw [hdrop]
  · rintro ⟨p, rfl⟩
    rw [String.data_append, List.length_append]
    refine ⟨Nat.le_add_left _ _, ?_⟩
    rw [Nat.add_sub_cancel]
    exact List.drop_left _ _

/-- Declaring the templates of an import prints but makes no cgo call. -/
theorem declare_templates_calls (step : StringDict × World → String → StringDict × World)
    (hstep : ∀ acc name, (step acc name).2.calls = acc.2.calls) :
    ∀ (names : List String) (acc : StringDict × World),
      (names.foldl step acc).2.calls = acc.2.calls := by
  intro names
  induction names with
  | nil => intro acc; rfl
  | cons name names ih =>
    intro acc
    rw [List.foldl_cons, ih, hstep]

/-- The function `runGNImport` calls the engine once, with the file name in double quotes,
and returns a name table and no error. -/
theorem runGNImport_calls (render : Value → String) (eng : Engine) (scope : Ptr)
    (filename : String) (w : World) :
    ∃ (table : StringDict) (out : List String),
      runGNImport render eng scope filename w
        = .returned (table, none)
            ⟨w.calls ++ [Call.run_gn_import scope ("\"" ++ filename ++ "\"")
              (eng.run_gn_import w.calls scope ("\"" ++ filename ++ "\""))], out⟩ := by
  have key : ∀ (done : StringDict × World) (calls : List Call), done.2.calls = calls →
      ∃ (table : StringDict) (out : List String),
        (Outcome.returned (done.1, none) done.2 : Outcome World (StringDict × Option String))
          = .returned (table, none) ⟨calls, out⟩ := by
    intro done calls h
    exact ⟨done.1, done.2.stdout, by rw [← h]⟩
  unfold runGNImport
  refine key _ _ ?_
  rw [declare_templates_calls]
  · rfl
  · intro acc name
    rfl

/-- C9: the `Load` hook of the thread that `ExecStarlark` builds returns the
error "Only .gni loads are supported" exactly for the module paths that do not
end in ".gni", and then makes no call at all; for a path ending in ".gni" it is
`runGNImport`, which calls `run_gn_import` once, with the path in double quotes,
and returns a name table with no error. -/
theorem load_hook_gni_only {F : Type} (render : Value → String) (eng : Engine) (scope : Ptr)
    (parseResult : ParseResult F) (m : String) (w : World) :
    ((∃ (table : StringDict) (w1 : World),
        (ExecStarlark.thread render eng scope parseResult).Load m w
          = .returned (table, some "Only .gni loads are supported") w1) ↔
      ¬ ∃ p : String, m = p ++ ".gni") ∧
    ((¬ ∃ p : String, m = p ++ ".gni") →
      (ExecStarlark.thread render eng scope parseResult).Load m w
        = .returned (StringDict.empty, some "Only .gni loads are supported") w) ∧
    ((∃ p : String, m = p ++ ".gni") →
      (ExecStarlark.thread render eng scope parseResult).Load m w
        = runGNImport render eng scope m w ∧
      ∃ (table : StringDict) (out : List String),
        runGNImport render eng scope m w
          = .returned (table, none)
              ⟨w.calls ++ [Call.run_gn_import scope ("\"" ++ m ++ "\"")
                (eng.run_gn_import w.calls scope ("\"" ++ m ++ "\""))], out⟩) := by
  have hyes : (∃ p : String, m = p ++ ".gni") →
      (ExecStarlark.thread render eng scope parseResult).Load m w
        = runGNImport render eng scope m w := by
    intro h
    simp [ExecStarlark.thread, (HasSuffix_iff m ".gni").2 h]
  have hnot : (¬ ∃ p : String, m = p ++ ".gni") →
      (ExecStarlark.thread render eng scope parseResult).Load m w
        = .returned (StringDict.empty, some "Only .gni loads are supported") w := by
    intro h
    have hs : HasSuffix m ".gni" = false := by
      cases hc : HasSuffix m ".gni" with
      | false => rfl
      | true => exact absurd ((HasSuffix_iff m ".gni").1 hc) h
    simp [ExecStarlark.thread, hs]
  refine ⟨⟨fun h hex => ?_, fun h => ⟨_, _, hnot h⟩⟩, hnot, fun h =>
    ⟨hyes h, runGNImport_calls render eng scope m w⟩⟩
  obtain ⟨table, w1, hload⟩ := h
  obtain ⟨table2, out, himp⟩ := runGNImport_calls render eng scope m w
  rw [hyes hex, himp] at hload
  injection hload with hload _
  injection hload with _ hload
  exact Option.noConfusion hload

/-- Instances of `load_hook_gni_only`: `defs.bzl` is rejected, `//build/defs.gni` is imported. -/
theorem load_hook_gni_only_witness :
    (ExecStarlark.thread sampleRender sampleEngine 7
        (⟨"BUILD.star", 1, some "x = 1"⟩ : ParseResult String)).Load "defs.bzl" ⟨[], []⟩
      = .returned (StringDict.empty, some "Only .gni loads are supported") ⟨[], []⟩ ∧
    ∃ (table : StringDict) (out : List String),
      runGNImport sampleRender sampleEngine 7 "//build/defs.gni" ⟨[], []⟩
        = .returned (table, none)
            ⟨[] ++ [Call.run_gn_import 7 ("\"" ++ "//build/defs.gni" ++ "\"")
              (sampleEngine.run_gn_import [] 7 ("\"" ++ "//build/defs.gni" ++ "\""))], out⟩ :=
  ⟨(load_hook_gni_only sampleRender sampleEngine 7
      (⟨"BUILD.star", 1, some "x = 1"⟩ : ParseResult String) "defs.bzl" ⟨[], []⟩).2.1
      (by rw [← HasSuffix_iff]; decide),
    ((load_hook_gni_only sampleRender sampleEngine 7
      (⟨"BUILD.star", 1, some "x = 1"⟩ : ParseResult String) "//build/defs.gni" ⟨[], []⟩).2.2
      ((HasSuffix_iff _ _).1 (by decide))).2⟩

end StarGN
